import Mathlib

/-!
Verification development for the sudoku-react application (`src/App.js`).

The JavaScript source is shallowly embedded: grids are lists of rows of
optional naturals (`null` becomes `none`), the randomized backtracking
generator takes an explicit shuffle oracle, the puzzle deriver takes an
explicit list of random cell picks (a finite prefix of the random stream;
exhausting it models non-termination of the retry loop), and the React
component state is a `Session` structure whose operations mirror the
handlers of `App`.  A JavaScript `TypeError` (indexing into `undefined`)
is modelled by an `Option` failure.
-/

namespace SudokuApp

/-- A cell of the board: `null` in JS becomes `none`. -/
abbrev Cell := Option Nat

/-- A grid is an array of rows of cells, exactly as in the JS source. -/
abbrev Grid := List (List Cell)

/-- Read `grid[r][c]`; out-of-range reads give `none` (callers below only
read in range, except where the JS semantics of `undefined` is modelled
explicitly in `handleCellClick`). -/
def cellAt (g : Grid) (r c : Nat) : Cell := (g.getD r []).getD c none

/-- Write `grid[r][c] = v` (a pure update of the nested lists). -/
def setCell (g : Grid) (r c : Nat) (v : Cell) : Grid :=
  g.set r ((g.getD r []).set c v)

/-- The grid is a 9×9 matrix. -/
def gridWF (g : Grid) : Prop := g.length = 9 ∧ ∀ row ∈ g, row.length = 9

instance : DecidablePred gridWF := fun g => by
  unfold gridWF; infer_instance

/-- Number of empty (`null`) cells of the grid. -/
def noneCount (g : Grid) : Nat :=
  (g.map fun row => row.countP fun cell => cell.isNone).sum

/-- Number of filled (non-`null`) cells of the grid. -/
def filledCount (g : Grid) : Nat :=
  (g.map fun row => row.countP fun cell => cell.isSome).sum

/-- Every cell of the grid is filled. -/
def gridFull (g : Grid) : Bool := g.all fun row => row.all fun cell => cell.isSome

/-- A cell holds an integer between 1 and 9. -/
def cellIn19 : Cell → Bool
  | none => false
  | some v => decide (1 ≤ v) && decide (v ≤ 9)

/-- Every cell of the grid holds an integer between 1 and 9. -/
def cells19 (g : Grid) : Bool := g.all fun row => row.all cellIn19

section ListLemmas

variable {α : Type _}

theorem getD_set_self (l : List α) (i : Nat) (v d : α) (hi : i < l.length) :
    (l.set i v).getD i d = v := by
  induction l generalizing i with
  | nil => simp at hi
  | cons a t ih =>
    cases i with
    | zero => simp [List.set, List.getD]
    | succ j =>
      simp only [List.set, List.getD_cons_succ]
      exact ih j (by simpa using hi)

theorem getD_set_ne (l : List α) (i j : Nat) (v d : α) (hij : i ≠ j) :
    (l.set i v).getD j d = l.getD j d := by
  induction l generalizing i j with
  | nil => simp [List.set]
  | cons a t ih =>
    cases i with
    | zero =>
      cases j with
      | zero => exact absurd rfl hij
      | succ j' => simp [List.set, List.getD]
    | succ i' =>
      cases j with
      | zero => simp [List.set, List.getD]
      | succ j' =>
        simp only [List.set, List.getD_cons_succ]
        exact ih i' j' (by omega)

theorem getD_of_length_le (l : List α) (i : Nat) (d : α) (h : l.length ≤ i) :
    l.getD i d = d := by
  induction l generalizing i with
  | nil => simp [List.getD]
  | cons a t ih =>
    cases i with
    | zero => simp at h
    | succ j =>
      simp only [List.getD_cons_succ]
      exact ih j (by simpa using h)

theorem set_of_length_le (l : List α) (i : Nat) (v : α) (h : l.length ≤ i) :
    l.set i v = l := by
  induction l generalizing i with
  | nil => simp
  | cons a t ih =>
    cases i with
    | zero => simp at h
    | succ j => simpa using ih j (by simpa using h)

theorem countP_set (p : α → Bool) (l : List α) (i : Nat) (v d : α)
    (hi : i < l.length) :
    (l.set i v).countP p + (if p (l.getD i d) then 1 else 0)
      = l.countP p + (if p v then 1 else 0) := by
  induction l generalizing i with
  | nil => simp at hi
  | cons a t ih =>
    cases i with
    | zero =>
      simp only [List.set, List.getD_cons_zero, List.countP_cons]
      omega
    | succ j =>
      simp only [List.set, List.getD_cons_succ, List.countP_cons]
      have := ih j (by simpa using hi)
      omega

theorem sum_map_set (f : α → Nat) (l : List α) (i : Nat) (v d : α)
    (hi : i < l.length) :
    ((l.set i v).map f).sum + f (l.getD i d) = (l.map f).sum + f v := by
  induction l generalizing i with
  | nil => simp at hi
  | cons a t ih =>
    cases i with
    | zero => simp [List.set]; omega
    | succ j =>
      simp only [List.set, List.getD_cons_succ, List.map_cons, List.sum_cons]
      have := ih j (by simpa using hi)
      omega

theorem countP_set_shrink (p : α → Bool) (l : List α) (i : Nat) (v d : α)
    (hi : i < l.length) (hpi : p (l.getD i d) = true) (hpv : p v = false) :
    (l.set i v).countP p + 1 = l.countP p := by
  have h := countP_set p l i v d hi
  rw [hpi, hpv] at h
  simpa using h

end ListLemmas

theorem cellAt_pos_of_ne_none {g : Grid} {r c : Nat} (h : cellAt g r c ≠ none) :
    r < g.length ∧ c < (g.getD r []).length := by
  constructor
  · by_contra hr
    apply h
    unfold cellAt
    rw [getD_of_length_le g r [] (by omega)]
    exact getD_of_length_le [] c none (by simp)
  · by_contra hc
    apply h
    unfold cellAt
    exact getD_of_length_le _ c none (by omega)

theorem cellAt_setCell_self {g : Grid} {r c : Nat} (v : Cell)
    (hr : r < g.length) (hc : c < (g.getD r []).length) :
    cellAt (setCell g r c v) r c = v := by
  unfold cellAt setCell
  rw [getD_set_self g r _ [] hr, getD_set_self _ c v none hc]

theorem cellAt_setCell_ne {g : Grid} {r c r' c' : Nat} (v : Cell)
    (h : r ≠ r' ∨ c ≠ c') :
    cellAt (setCell g r c v) r' c' = cellAt g r' c' := by
  unfold cellAt setCell
  rcases h with h | h
  · rw [getD_set_ne g r r' _ [] h]
  · rcases eq_or_ne r r' with rfl | hrr
    · rcases Nat.lt_or_ge r g.length with hr | hr
      · rw [getD_set_self g r _ [] hr, getD_set_ne _ c c' v none h]
      · rw [set_of_length_le g r _ hr]
    · rw [getD_set_ne g r r' _ [] hrr]

theorem length_setCell (g : Grid) (r c : Nat) (v : Cell) :
    (setCell g r c v).length = g.length := by
  simp [setCell]

theorem getD_setCell_row_length (g : Grid) (r c : Nat) (v : Cell) (r' : Nat) :
    ((setCell g r c v).getD r' []).length = (g.getD r' []).length := by
  rcases eq_or_ne r r' with rfl | hrr
  · rcases Nat.lt_or_ge r g.length with hr | hr
    · rw [setCell, getD_set_self g r _ [] hr, List.length_set]
    · rw [setCell, set_of_length_le g r _ hr]
  · rw [setCell, getD_set_ne g r r' _ [] hrr]

theorem getD_mem_of_lt {α : Type _} (l : List α) (i : Nat) (d : α)
    (h : i < l.length) : l.getD i d ∈ l := by
  induction l generalizing i with
  | nil => simp at h
  | cons a t ih =>
    cases i with
    | zero => simp [List.getD]
    | succ j =>
      simp only [List.getD_cons_succ]
      exact List.mem_cons_of_mem a (ih j (by simpa using h))

theorem gridWF_setCell {g : Grid} (r c : Nat) (v : Cell) (h : gridWF g) :
    gridWF (setCell g r c v) := by
  obtain ⟨hlen, hrows⟩ := h
  rcases Nat.lt_or_ge r g.length with hr | hr
  · refine ⟨by simp [setCell, hlen], ?_⟩
    intro row hrow
    rcases List.mem_or_eq_of_mem_set hrow with hmem | rfl
    · exact hrows row hmem
    · rw [List.length_set]
      exact hrows _ (getD_mem_of_lt g r [] hr)
  · unfold setCell
    rw [set_of_length_le g r _ hr]
    exact ⟨hlen, hrows⟩

theorem noneCount_set_row (g : Grid) (r : Nat) (row' : List Cell)
    (hr : r < g.length) :
    noneCount (g.set r row') + (g.getD r []).countP (fun cell => cell.isNone)
      = noneCount g + row'.countP (fun cell => cell.isNone) := by
  simpa [noneCount] using
    sum_map_set (fun row => row.countP fun cell => cell.isNone) g r row' [] hr

theorem filledCount_set_row (g : Grid) (r : Nat) (row' : List Cell)
    (hr : r < g.length) :
    filledCount (g.set r row') + (g.getD r []).countP (fun cell => cell.isSome)
      = filledCount g + row'.countP (fun cell => cell.isSome) := by
  simpa [filledCount] using
    sum_map_set (fun row => row.countP fun cell => cell.isSome) g r row' [] hr

theorem noneCount_setCell_some {g : Grid} {r c : Nat} (n : Nat)
    (hempty : cellAt g r c = none) (hr : r < g.length)
    (hc : c < (g.getD r []).length) :
    noneCount (setCell g r c (some n)) + 1 = noneCount g := by
  have hcell : (g.getD r []).getD c none = none := hempty
  have hrow := countP_set_shrink (fun cell => cell.isNone) (g.getD r []) c
    (some n) none hc (by rw [hcell]; rfl) rfl
  have hg := noneCount_set_row g r ((g.getD r []).set c (some n)) hr
  unfold setCell
  omega

theorem filledCount_setCell_none {g : Grid} {r c : Nat}
    (hfilled : cellAt g r c ≠ none) (hr : r < g.length)
    (hc : c < (g.getD r []).length) :
    filledCount (setCell g r c none) + 1 = filledCount g := by
  have hcell : ((g.getD r []).getD c none).isSome = true := by
    have h : cellAt g r c ≠ none := hfilled
    unfold cellAt at h
    exact Option.isSome_iff_ne_none.mpr h
  have hrow := countP_set_shrink (fun cell => cell.isSome) (g.getD r []) c
    none none hc hcell rfl
  have hg := filledCount_set_row g r ((g.getD r []).set c none) hr
  unfold setCell
  omega

/-- Index of the first `null` cell of a row, if any. -/
def findNoneIdx : List Cell → Option Nat
  | [] => none
  | none :: _ => some 0
  | some _ :: rest => (findNoneIdx rest).map (· + 1)

/-- Row-major scan for the first `null` cell, starting at row index `r0`:
this is the `grid[row][col] === null` scan of `fillGrid`. -/
def findEmptyFrom : Nat → Grid → Option (Nat × Nat)
  | _, [] => none
  | r0, row :: rest =>
    match findNoneIdx row with
    | some c => some (r0, c)
    | none => findEmptyFrom (r0 + 1) rest

def findEmpty (g : Grid) : Option (Nat × Nat) := findEmptyFrom 0 g

theorem findNoneIdx_spec {row : List Cell} {c : Nat}
    (h : findNoneIdx row = some c) :
    c < row.length ∧ row.getD c none = none := by
  induction row generalizing c with
  | nil => simp [findNoneIdx] at h
  | cons a t ih =>
    cases a with
    | none =>
      simp only [findNoneIdx, Option.some_inj] at h
      subst h
      simp [List.getD]
    | some v =>
      simp only [findNoneIdx, Option.map_eq_some'] at h
      obtain ⟨c', hc', rfl⟩ := h
      obtain ⟨h1, h2⟩ := ih hc'
      exact ⟨by simpa using Nat.succ_lt_succ h1, by simpa [List.getD] using h2⟩

theorem findNoneIdx_none {row : List Cell} (h : findNoneIdx row = none) :
    ∀ cell ∈ row, cell.isSome := by
  induction row with
  | nil => simp
  | cons a t ih =>
    cases a with
    | none => simp [findNoneIdx] at h
    | some v =>
      simp only [findNoneIdx, Option.map_eq_none'] at h
      intro cell hcell
      rcases List.mem_cons.mp hcell with rfl | hmem
      · rfl
      · exact ih h cell hmem

theorem findEmptyFrom_spec {g : Grid} {r0 r c : Nat}
    (h : findEmptyFrom r0 g = some (r, c)) :
    r0 ≤ r ∧ r - r0 < g.length ∧ findNoneIdx (g.getD (r - r0) []) = some c := by
  induction g generalizing r0 with
  | nil => simp [findEmptyFrom] at h
  | cons row rest ih =>
    simp only [findEmptyFrom] at h
    cases hrow : findNoneIdx row with
    | some c' =>
      rw [hrow] at h
      simp at h
      obtain ⟨rfl, rfl⟩ := h
      simp [List.getD, hrow]
    | none =>
      rw [hrow] at h
      obtain ⟨h1, h2, h3⟩ := ih h
      refine ⟨by omega, by simp; omega, ?_⟩
      have hr : r - r0 = (r - (r0 + 1)) + 1 := by omega
      rw [hr]
      simpa [List.getD] using h3

theorem findEmpty_spec {g : Grid} {r c : Nat} (h : findEmpty g = some (r, c)) :
    r < g.length ∧ c < (g.getD r []).length ∧ cellAt g r c = none := by
  have h0 : findEmptyFrom 0 g = some (r, c) := h
  have h' := findEmptyFrom_spec h0
  simp only [Nat.sub_zero] at h'
  obtain ⟨-, h1, h2⟩ := h'
  obtain ⟨h3, h4⟩ := findNoneIdx_spec h2
  exact ⟨h1, h3, h4⟩

theorem findEmptyFrom_none {g : Grid} {r0 : Nat}
    (h : findEmptyFrom r0 g = none) : ∀ row ∈ g, findNoneIdx row = none := by
  induction g generalizing r0 with
  | nil => simp
  | cons row rest ih =>
    simp only [findEmptyFrom] at h
    cases hrow : findNoneIdx row with
    | some c' => rw [hrow] at h; exact absurd h (by simp)
    | none =>
      rw [hrow] at h
      intro row' hmem
      rcases List.mem_cons.mp hmem with rfl | hmem'
      · exact hrow
      · exact ih h row' hmem'

theorem findEmpty_none {g : Grid} (h : findEmpty g = none) :
    gridFull g = true := by
  unfold gridFull
  rw [List.all_eq_true]
  intro row hrow
  rw [List.all_eq_true]
  intro cell hcell
  exact findNoneIdx_none (findEmptyFrom_none h row hrow) cell hcell

theorem gridFull_cellAt {g : Grid} (hfull : gridFull g = true) {r c : Nat}
    (hr : r < g.length) (hc : c < (g.getD r []).length) :
    (cellAt g r c).isSome := by
  unfold gridFull at hfull
  rw [List.all_eq_true] at hfull
  have hrow := hfull (g.getD r []) (getD_mem_of_lt g r [] hr)
  rw [List.all_eq_true] at hrow
  exact hrow (cellAt g r c) (getD_mem_of_lt _ c none hc)

/-! The constraint checker, transcribed from `isValidPlacement` in
`src/App.js`: one loop scanning the full row and full column, then a 3×3
scan of the containing box located at `(row/3*3, col/3*3)`. -/

def isValidPlacement (grid : Grid) (row col num : Nat) : Bool :=
  ((List.range 9).all fun i =>
      !(cellAt grid row i == some num) && !(cellAt grid i col == some num))
    && ((List.range 3).all fun i => (List.range 3).all fun j =>
      !(cellAt grid (row / 3 * 3 + i) (col / 3 * 3 + j) == some num))

theorem isValidPlacement_true_iff {g : Grid} {row col num : Nat} :
    isValidPlacement g row col num = true ↔
      (∀ i < 9, cellAt g row i ≠ some num ∧ cellAt g i col ≠ some num) ∧
      (∀ i < 3, ∀ j < 3,
        cellAt g (row / 3 * 3 + i) (col / 3 * 3 + j) ≠ some num) := by
  simp [isValidPlacement, List.all_eq_true, List.mem_range]

/-- Two cells see each other: same row, same column, or same 3×3 box. -/
def sameUnit (r c r' c' : Nat) : Prop :=
  r = r' ∨ c = c' ∨ (r / 3 = r' / 3 ∧ c / 3 = c' / 3)

instance (r c r' c' : Nat) : Decidable (sameUnit r c r' c') := by
  unfold sameUnit; infer_instance

/-- No two distinct cells that see each other hold the same (filled)
value.  This is the invariant the backtracking search maintains. -/
def Consistent (g : Grid) : Prop :=
  ∀ r, r < 9 → ∀ c, c < 9 → ∀ r', r' < 9 → ∀ c', c' < 9 →
    (r ≠ r' ∨ c ≠ c') → sameUnit r c r' c' →
    cellAt g r c = none ∨ cellAt g r c ≠ cellAt g r' c'

/-- Executable check of `Consistent`, used to certify concrete grids. -/
def consistentB (g : Grid) : Bool :=
  (List.range 9).all fun r => (List.range 9).all fun c =>
    (List.range 9).all fun r' => (List.range 9).all fun c' =>
      !(decide (r ≠ r' ∨ c ≠ c')) || !(decide (sameUnit r c r' c')) ||
        (cellAt g r c == none) || !(cellAt g r c == cellAt g r' c')

theorem consistentB_imp {g : Grid} (h : consistentB g = true) :
    Consistent g := by
  intro r hr c hc r' hr' c' hc' hne hunit
  unfold consistentB at h
  simp only [List.all_eq_true, List.mem_range] at h
  have hx := h r hr c hc r' hr' c' hc'
  simp only [Bool.or_eq_true, Bool.not_eq_true', decide_eq_false_iff_not,
    beq_iff_eq, Bool.not_eq_true, beq_eq_false_iff_ne] at hx
  rcases hx with ((h1 | h1) | h1) | h1
  · exact absurd hne h1
  · exact absurd hunit h1
  · exact Or.inl h1
  · exact Or.inr h1

theorem consistent_conflict {g : Grid} (hcons : Consistent g)
    {r c r' c' v : Nat} (hr : r < 9) (hc : c < 9) (hr' : r' < 9) (hc' : c' < 9)
    (hne : r ≠ r' ∨ c ≠ c') (hunit : sameUnit r c r' c')
    (h1 : cellAt g r c = some v) (h2 : cellAt g r' c' = some v) : False := by
  rcases hcons r hr c hc r' hr' c' hc' hne hunit with h | h
  · rw [h1] at h; exact Option.noConfusion h
  · exact h (by rw [h1, h2])

theorem cellAt_lt9_of_some {g : Grid} (hwf : gridWF g) {r c : Nat}
    (h : cellAt g r c ≠ none) : r < 9 ∧ c < 9 := by
  obtain ⟨hr, hc⟩ := cellAt_pos_of_ne_none h
  obtain ⟨hlen, hrows⟩ := hwf
  have : (g.getD r []).length = 9 :=
    hrows _ (getD_mem_of_lt g r [] (by omega))
  omega

theorem sameUnit_symm {a b x y : Nat} (h : sameUnit a b x y) :
    sameUnit x y a b := by
  unfold sameUnit at h ⊢
  omega

/-- Placing a value accepted by the constraint checker into an empty cell
of a consistent 9×9 grid keeps the grid consistent. -/
theorem consistent_setCell {g : Grid} {r c n : Nat} (hwf : gridWF g)
    (hcons : Consistent g) (hempty : cellAt g r c = none)
    (hr9 : r < 9) (hc9 : c < 9)
    (hvalid : isValidPlacement g r c n = true) :
    Consistent (setCell g r c (some n)) := by
  obtain ⟨hscan, hbox⟩ := isValidPlacement_true_iff.mp hvalid
  obtain ⟨hlen, hrows⟩ := hwf
  have hrl : r < g.length := by omega
  have hcl : c < (g.getD r []).length := by
    rw [hrows _ (getD_mem_of_lt g r [] hrl)]; omega
  have hself : cellAt (setCell g r c (some n)) r c = some n :=
    cellAt_setCell_self _ hrl hcl
  have hno : ∀ x y, x < 9 → y < 9 → sameUnit x y r c →
      cellAt g x y ≠ some n := by
    intro x y hx hy hsu hsome
    rcases hsu with h | h | ⟨hdr, hdc⟩
    · subst h
      exact (hscan y hy).1 hsome
    · subst h
      exact (hscan x hx).2 hsome
    · have hx3 : x = r / 3 * 3 + x % 3 := by omega
      have hy3 : y = c / 3 * 3 + y % 3 := by omega
      have hb := hbox (x % 3) (by omega) (y % 3) (by omega)
      rw [← hx3, ← hy3] at hb
      exact hb hsome
  intro r1 h1 c1 h2 r2 h3 c2 h4 hne hunit
  by_cases e1 : r1 = r ∧ c1 = c
  · by_cases e2 : r2 = r ∧ c2 = c
    · exfalso
      obtain ⟨ha, hb⟩ := e1
      obtain ⟨hc', hd⟩ := e2
      rcases hne with h | h
      · exact h (by omega)
      · exact h (by omega)
    · right
      rw [e1.1, e1.2, hself,
        cellAt_setCell_ne (some n) (by rcases not_and_or.mp e2 with h | h
                                       · exact Or.inl (fun hh => h hh.symm)
                                       · exact Or.inr (fun hh => h hh.symm))]
      intro heq
      have hsu : sameUnit r2 c2 r c := by
        rw [e1.1, e1.2] at hunit
        exact sameUnit_symm hunit
      exact hno r2 c2 h3 h4 hsu heq.symm
  · by_cases e2 : r2 = r ∧ c2 = c
    · right
      rw [e2.1, e2.2, hself,
        cellAt_setCell_ne (some n) (by rcases not_and_or.mp e1 with h | h
                                       · exact Or.inl (fun hh => h hh.symm)
                                       · exact Or.inr (fun hh => h hh.symm))]
      intro heq
      have hsu : sameUnit r1 c1 r c := by
        rw [e2.1, e2.2] at hunit
        exact hunit
      exact hno r1 c1 h1 h2 hsu heq
    · rw [cellAt_setCell_ne (some n) (by rcases not_and_or.mp e1 with h | h
                                         · exact Or.inl (fun hh => h hh.symm)
                                         · exact Or.inr (fun hh => h hh.symm)),
          cellAt_setCell_ne (some n) (by rcases not_and_or.mp e2 with h | h
                                         · exact Or.inl (fun hh => h hh.symm)
                                         · exact Or.inr (fun hh => h hh.symm))]
      exact hcons r1 h1 c1 h2 r2 h3 c2 h4 hne hunit

/-! The grid generator (`generateSudokuGrid` / `fillGrid` in the source).
The JS shuffle `sort(() => Math.random() - 0.5)` only reorders `[1..9]`,
so it is modelled by an oracle `rnd : Nat → List Nat` giving the candidate
list produced at the k-th shuffle; the counter `k` is threaded through the
recursion.  `Sum.inl` is success (the completed grid); `Sum.inr k'` is the
JS `return false` (all placements on that branch rolled back), carrying
the updated shuffle counter. -/

mutual

/-- Functional form of the recursive `fillGrid` closure: scan for the
first empty cell in row-major order; if none, the grid is complete;
otherwise try the shuffled candidates there. -/
def fillGrid (rnd : Nat → List Nat) (g : Grid) (k : Nat) : Sum Grid Nat :=
  match hfe : findEmpty g with
  | none => Sum.inl g
  | some (r, c) =>
    tryNums rnd g r c (findEmpty_spec hfe).1 (findEmpty_spec hfe).2.1
      (findEmpty_spec hfe).2.2 (k + 1) (rnd k)
termination_by (noneCount g, 1, 0)

/-- The `for (const num of numbers)` loop of `fillGrid`: place each
candidate that passes the constraint checker and recurse; on failure of
the recursive call, unplace (the functional embedding just keeps `g`) and
try the next candidate.  The three proof arguments record that the loop
is only ever entered at an in-range empty cell, found by `findEmpty`:
that fact is what makes each placement shrink `noneCount`, the
termination measure. -/
def tryNums (rnd : Nat → List Nat) (g : Grid) (r c : Nat)
    (hr : r < g.length) (hc : c < (g.getD r []).length)
    (hempty : cellAt g r c = none) (k : Nat) (cands : List Nat) :
    Sum Grid Nat :=
  match cands with
  | [] => Sum.inr k
  | n :: rest =>
    if isValidPlacement g r c n then
      match fillGrid rnd (setCell g r c (some n)) k with
      | Sum.inl full => Sum.inl full
      | Sum.inr k2 => tryNums rnd g r c hr hc hempty k2 rest
    else tryNums rnd g r c hr hc hempty k rest
termination_by (noneCount g, 0, cands.length)
decreasing_by
· have := noneCount_setCell_some n hempty hr hc
  have hlt : noneCount (setCell g r c (some n)) < noneCount g := by omega
  exact Prod.Lex.left _ _ hlt
· exact Prod.Lex.right _ (Prod.Lex.right _ (Nat.lt_succ_self _))
· exact Prod.Lex.right _ (Prod.Lex.right _ (Nat.lt_succ_self _))

end

/-- The 9×9 all-`null` starting grid of `generateSudokuGrid`. -/
def emptyGrid : Grid := List.replicate 9 (List.replicate 9 (none : Cell))

/-- Top-level `generateSudokuGrid`: run `fillGrid` on the empty grid and
return the (mutated) grid; if the search failed every placement was rolled
back, so the grid returned is still entirely empty. -/
def generateSudokuGrid (rnd : Nat → List Nat) : Grid :=
  match fillGrid rnd emptyGrid 0 with
  | Sum.inl g => g
  | Sum.inr _ => emptyGrid

/-- The candidate pool `[...Array(9).keys()].map(x => x + 1)`. -/
def nums19 : List Nat := [1, 2, 3, 4, 5, 6, 7, 8, 9]

theorem mem_nums19 {v : Nat} : v ∈ nums19 ↔ 1 ≤ v ∧ v ≤ 9 := by
  constructor
  · intro h
    simp [nums19] at h
    omega
  · intro h
    simp [nums19]
    omega

/-- Every filled cell holds a value from the candidate pool. -/
def Vals19 (g : Grid) : Prop := ∀ r c v, cellAt g r c = some v → v ∈ nums19

theorem gridWF_rowlen {g : Grid} (hwf : gridWF g) {r : Nat} (hr : r < 9) :
    (g.getD r []).length = 9 :=
  hwf.2 _ (getD_mem_of_lt g r [] (by rw [hwf.1]; omega))

theorem cellAt_setCell_cases {g : Grid} {r c : Nat} (v : Cell) (r' c' : Nat)
    (hr : r < g.length) (hc : c < (g.getD r []).length) :
    (cellAt (setCell g r c v) r' c' = v ∧ r' = r ∧ c' = c) ∨
    cellAt (setCell g r c v) r' c' = cellAt g r' c' := by
  by_cases h : r' = r ∧ c' = c
  · obtain ⟨rfl, rfl⟩ := h
    exact Or.inl ⟨cellAt_setCell_self v hr hc, rfl, rfl⟩
  · refine Or.inr (cellAt_setCell_ne v ?_)
    rcases not_and_or.mp h with h' | h'
    · exact Or.inl fun hh => h' hh.symm
    · exact Or.inr fun hh => h' hh.symm

theorem vals19_setCell {g : Grid} {r c n : Nat} (hvals : Vals19 g)
    (hn : n ∈ nums19) (hr : r < g.length)
    (hc : c < (g.getD r []).length) :
    Vals19 (setCell g r c (some n)) := by
  intro r' c' v hv
  rcases cellAt_setCell_cases (some n) r' c' hr hc with ⟨heq, -, -⟩ | heq
  · rw [hv] at heq
    obtain rfl : v = n := Option.some.inj heq
    exact hn
  · exact hvals r' c' v (heq ▸ hv)

/-- Invariants maintained by the search. -/
def SearchInv (g : Grid) : Prop := gridWF g ∧ Consistent g ∧ Vals19 g

theorem searchInv_setCell {g : Grid} {r c n : Nat} (hinv : SearchInv g)
    (hempty : cellAt g r c = none) (hr : r < g.length)
    (hc : c < (g.getD r []).length) (hn : n ∈ nums19)
    (hvalid : isValidPlacement g r c n = true) :
    SearchInv (setCell g r c (some n)) := by
  obtain ⟨hwf, hcons, hvals⟩ := hinv
  have hr9 : r < 9 := by rw [← hwf.1]; exact hr
  have hc9 : c < 9 := by
    have := gridWF_rowlen hwf hr9
    omega
  exact ⟨gridWF_setCell r c _ hwf,
    consistent_setCell hwf hcons hempty hr9 hc9 hvalid,
    vals19_setCell hvals hn hr hc⟩

theorem tryNums_sound {rnd : Nat → List Nat} {g : Grid} {r c : Nat}
    {hr : r < g.length} {hc : c < (g.getD r []).length}
    {hempty : cellAt g r c = none} :
    ∀ (cands : List Nat) (k : Nat) (full : Grid),
      (∀ g' k' full', noneCount g' < noneCount g → SearchInv g' →
        fillGrid rnd g' k' = Sum.inl full' →
        SearchInv full' ∧ gridFull full' = true) →
      SearchInv g → (∀ n ∈ cands, n ∈ nums19) →
      tryNums rnd g r c hr hc hempty k cands = Sum.inl full →
      SearchInv full ∧ gridFull full = true := by
  intro cands
  induction cands with
  | nil =>
    intro k full _ _ _ heq
    rw [tryNums] at heq
    exact absurd heq (by simp)
  | cons n rest ih =>
    intro k full hfg hinv hcands heq
    rw [tryNums] at heq
    by_cases hvalid : isValidPlacement g r c n = true
    · rw [if_pos hvalid] at heq
      have hlt : noneCount (setCell g r c (some n)) < noneCount g := by
        have := noneCount_setCell_some n hempty hr hc
        omega
      have hinv' : SearchInv (setCell g r c (some n)) :=
        searchInv_setCell hinv hempty hr hc (hcands n (by simp)) hvalid
      cases hfg2 : fillGrid rnd (setCell g r c (some n)) k with
      | inl full' =>
        rw [hfg2] at heq
        obtain rfl : full' = full := by injection heq
        exact hfg _ _ _ hlt hinv' hfg2
      | inr k2 =>
        rw [hfg2] at heq
        exact ih k2 full hfg hinv (fun m hm => hcands m (by simp [hm])) heq
    · rw [if_neg hvalid] at heq
      exact ih k full hfg hinv (fun m hm => hcands m (by simp [hm])) heq

theorem fillGrid_sound {rnd : Nat → List Nat} :
    ∀ (N : Nat) (g : Grid) (k : Nat) (full : Grid), noneCount g = N →
      (∀ k', ∀ n ∈ rnd k', n ∈ nums19) → SearchInv g →
      fillGrid rnd g k = Sum.inl full →
      SearchInv full ∧ gridFull full = true := by
  intro N
  induction N using Nat.strong_induction_on with
  | _ N IH =>
    intro g k full hN hrnd hinv heq
    rw [fillGrid] at heq
    split at heq
    next hfe =>
      obtain rfl : g = full := by injection heq
      exact ⟨hinv, findEmpty_none hfe⟩
    next r c hfe =>
      refine tryNums_sound _ _ _ ?_ hinv (fun n hn => hrnd k n hn) heq
      intro g' k' full' hlt hinv' heq'
      exact IH (noneCount g') (by omega) g' k' full' rfl hrnd hinv' heq'

theorem fillGrid_eq_none {rnd : Nat → List Nat} {g : Grid} {k : Nat}
    (hfe : findEmpty g = none) : fillGrid rnd g k = Sum.inl g := by
  rw [fillGrid]
  split
  · rfl
  next r' c' hfe' => rw [hfe'] at hfe; exact absurd hfe (by simp)

theorem fillGrid_eq_some {rnd : Nat → List Nat} {g : Grid} {k r c : Nat}
    (hfe : findEmpty g = some (r, c)) (hr : r < g.length)
    (hc : c < (g.getD r []).length) (hempty : cellAt g r c = none) :
    fillGrid rnd g k = tryNums rnd g r c hr hc hempty (k + 1) (rnd k) := by
  rw [fillGrid]
  split
  next hfe' => rw [hfe'] at hfe; exact absurd hfe (by simp)
  next r' c' hfe' =>
    have h := hfe'.symm.trans hfe
    simp only [Option.some_inj, Prod.mk.injEq] at h
    obtain ⟨rfl, rfl⟩ := h
    rfl

/-- A solved grid: 9×9, consistent, every cell filled with 1-9. -/
def Solved (C : Grid) : Prop :=
  gridWF C ∧ Consistent C ∧ ∀ r, r < 9 → ∀ c, c < 9 →
    cellIn19 (cellAt C r c) = true

/-- `C` agrees with `g` on every filled cell of `g`. -/
def Extends (C g : Grid) : Prop :=
  ∀ r c v, cellAt g r c = some v → cellAt C r c = some v

/-- `g` has a solved completion. -/
def Completable (g : Grid) : Prop := ∃ C, Solved C ∧ Extends C g

theorem solved_cell {C : Grid} (hS : Solved C) {r c : Nat} (hr : r < 9)
    (hc : c < 9) : ∃ v, cellAt C r c = some v ∧ v ∈ nums19 := by
  have h := hS.2.2 r hr c hc
  cases hv : cellAt C r c with
  | none => rw [hv] at h; exact absurd h (by simp [cellIn19])
  | some v =>
    refine ⟨v, rfl, ?_⟩
    rw [hv] at h
    simp only [cellIn19, Bool.and_eq_true, decide_eq_true_eq] at h
    exact mem_nums19.mpr h

/-- The value a solved completion puts at the first empty cell always
passes the constraint checker on the partial grid. -/
theorem completion_value_valid {g C : Grid} (hS : Solved C)
    (hext : Extends C g) {r c v : Nat} (hr : r < 9) (hc : c < 9)
    (hempty : cellAt g r c = none) (hv : cellAt C r c = some v) :
    isValidPlacement g r c v = true := by
  obtain ⟨-, hconsC, -⟩ := hS
  rw [isValidPlacement_true_iff]
  refine ⟨?_, ?_⟩
  · intro i hi
    constructor
    · intro hcell
      have hic : i ≠ c := fun h => by rw [h, hempty] at hcell; cases hcell
      exact consistent_conflict hconsC hr hc hr hi (Or.inr fun h => hic h.symm)
        (Or.inl rfl) hv (hext r i v hcell)
    · intro hcell
      have hir : i ≠ r := fun h => by rw [h, hempty] at hcell; cases hcell
      exact consistent_conflict hconsC hr hc hi hc (Or.inl fun h => hir h.symm)
        (Or.inr (Or.inl rfl)) hv (hext i c v hcell)
  · intro i hi j hj hcell
    set x := r / 3 * 3 + i with hx
    set y := c / 3 * 3 + j with hy
    have hxy : x ≠ r ∨ y ≠ c := by
      by_contra hcon
      push_neg at hcon
      rw [hcon.1, hcon.2, hempty] at hcell
      cases hcell
    exact consistent_conflict hconsC hr hc (by omega) (by omega)
      (by rcases hxy with h | h
          · exact Or.inl fun hh => h hh.symm
          · exact Or.inr fun hh => h hh.symm)
      (Or.inr (Or.inr ⟨by omega, by omega⟩)) hv (hext x y v hcell)

theorem completable_setCell {g C : Grid} (hS : Solved C) (hext : Extends C g)
    {r c v : Nat} (hr : r < g.length) (hc : c < (g.getD r []).length)
    (hv : cellAt C r c = some v) :
    Completable (setCell g r c (some v)) := by
  refine ⟨C, hS, ?_⟩
  intro r' c' w hw
  rcases cellAt_setCell_cases (some v) r' c' hr hc with ⟨heq, rfl, rfl⟩ | heq
  · rw [hw] at heq
    obtain rfl := Option.some.inj heq
    exact hv
  · exact hext r' c' w (heq ▸ hw)

theorem tryNums_complete {rnd : Nat → List Nat}
    {g : Grid} {r c : Nat} {hr : r < g.length}
    {hc : c < (g.getD r []).length} {hempty : cellAt g r c = none}
    (hwf : gridWF g) {C : Grid} (hS : Solved C) (hext : Extends C g) {v : Nat}
    (hr9 : r < 9) (hc9 : c < 9) (hv : cellAt C r c = some v)
    (hIH : ∀ g' k', noneCount g' < noneCount g → gridWF g' → Completable g' →
      ∃ full, fillGrid rnd g' k' = Sum.inl full) :
    ∀ (cands : List Nat) (k : Nat), v ∈ cands →
      ∃ full, tryNums rnd g r c hr hc hempty k cands = Sum.inl full := by
  intro cands
  induction cands with
  | nil =>
    intro k hvmem
    exact absurd hvmem (by simp)
  | cons n rest ih =>
    intro k hvmem
    rw [tryNums]
    by_cases hvalid : isValidPlacement g r c n = true
    · rw [if_pos hvalid]
      cases hfg : fillGrid rnd (setCell g r c (some n)) k with
      | inl full => exact ⟨full, rfl⟩
      | inr k2 =>
        have hnv : n ≠ v := by
          intro hnv
          subst hnv
          have hlt : noneCount (setCell g r c (some n)) < noneCount g := by
            have := noneCount_setCell_some n hempty hr hc
            omega
          obtain ⟨full', hfull'⟩ := hIH (setCell g r c (some n)) k hlt
            (gridWF_setCell r c _ hwf)
            (completable_setCell hS hext hr hc hv)
          rw [hfg] at hfull'
          cases hfull'
        have hvrest : v ∈ rest := by
          rcases List.mem_cons.mp hvmem with h | h
          · exact absurd h.symm hnv
          · exact h
        exact ih k2 hvrest
    · rw [if_neg hvalid]
      have hnv : n ≠ v := by
        intro hnv
        subst hnv
        exact hvalid (completion_value_valid hS hext hr9 hc9 hempty hv)
      have hvrest : v ∈ rest := by
        rcases List.mem_cons.mp hvmem with h | h
        · exact absurd h.symm hnv
        · exact h
      exact ih k hvrest

/-- Completeness of the backtracking search: a well-formed completable
grid is always filled, whatever shuffles the oracle produces, as long as
each shuffle is a permutation of `[1..9]` (which the JS comparator sort
guarantees). -/
theorem fillGrid_complete {rnd : Nat → List Nat}
    (hrnd : ∀ k', (rnd k').Perm nums19) :
    ∀ (N : Nat) (g : Grid) (k : Nat), noneCount g = N → gridWF g →
      Completable g → ∃ full, fillGrid rnd g k = Sum.inl full := by
  intro N
  induction N using Nat.strong_induction_on with
  | _ N IH =>
    intro g k hN hwf hcomp
    cases hfe : findEmpty g with
    | none => exact ⟨g, fillGrid_eq_none hfe⟩
    | some rc =>
      obtain ⟨r, c⟩ := rc
      obtain ⟨hr, hc, hempty⟩ := findEmpty_spec hfe
      have hr9 : r < 9 := by rw [← hwf.1]; exact hr
      have hc9 : c < 9 := by
        have := gridWF_rowlen hwf hr9
        omega
      obtain ⟨C, hS, hext⟩ := hcomp
      obtain ⟨v, hv, hvmem⟩ := solved_cell hS hr9 hc9
      rw [fillGrid_eq_some hfe hr hc hempty]
      refine tryNums_complete hwf hS hext hr9 hc9 hv ?_ (rnd k) (k + 1) ?_
      · intro g' k' hlt hwf' hcomp'
        exact IH (noneCount g') (by omega) g' k' rfl hwf' hcomp'
      · exact ((hrnd k).mem_iff).mpr hvmem

/-! Validity of a full consistent grid: every row, column and 3×3 box
contains each of 1-9 exactly once.  These definitions formalize the
spec-side property the generated grid is checked against. -/

/-- The cells of row `r`. -/
def rowCells (g : Grid) (r : Nat) : List Cell :=
  (List.range 9).map fun c => cellAt g r c

/-- The cells of column `c`. -/
def colCells (g : Grid) (c : Nat) : List Cell :=
  (List.range 9).map fun r => cellAt g r c

/-- The cells of box `b` (boxes numbered 0-8, row-major). -/
def boxCells (g : Grid) (b : Nat) : List Cell :=
  (List.range 9).map fun k => cellAt g (b / 3 * 3 + k / 3) (b % 3 * 3 + k % 3)

/-- The nine cells contain each value 1-9 exactly once. -/
def linePerm19 (l : List Cell) : Bool :=
  (List.range 9).all fun k => l.count (some (k + 1)) == 1

/-- Every row, column and box of the grid is a permutation of 1-9. -/
def gridValid (g : Grid) : Bool :=
  (List.range 9).all fun i =>
    linePerm19 (rowCells g i) && linePerm19 (colCells g i) &&
      linePerm19 (boxCells g i)

theorem getD_eq_getElem {α : Type _} (l : List α) (i : Nat) (d : α)
    (h : i < l.length) : l.getD i d = l[i] := by
  induction l generalizing i with
  | nil => simp at h
  | cons a t ih =>
    cases i with
    | zero => simp [List.getD]
    | succ j =>
      simp only [List.getD_cons_succ, List.getElem_cons_succ]
      exact ih j (by simpa using h)

theorem linePerm19_of_unit {g : Grid} (hwf : gridWF g) (hcons : Consistent g)
    (hvals : Vals19 g) (hfull : gridFull g = true) (f : Nat → Nat × Nat)
    (hb : ∀ i < 9, (f i).1 < 9 ∧ (f i).2 < 9)
    (hinj : ∀ i < 9, ∀ j < 9, i ≠ j → (f i).1 ≠ (f j).1 ∨ (f i).2 ≠ (f j).2)
    (hunit : ∀ i < 9, ∀ j < 9, sameUnit (f i).1 (f i).2 (f j).1 (f j).2) :
    linePerm19 ((List.range 9).map fun i => cellAt g (f i).1 (f i).2)
      = true := by
  set l : List Cell := (List.range 9).map fun i => cellAt g (f i).1 (f i).2
    with hl
  have hsome : ∀ i < 9, ∃ v, cellAt g (f i).1 (f i).2 = some v ∧ v ∈ nums19 := by
    intro i hi
    obtain ⟨h1, h2⟩ := hb i hi
    have hrl : (f i).1 < g.length := by rw [hwf.1]; omega
    have hcl : (f i).2 < (g.getD (f i).1 []).length := by
      rw [gridWF_rowlen hwf h1]; omega
    have := gridFull_cellAt hfull hrl hcl
    obtain ⟨v, hv⟩ := Option.isSome_iff_exists.mp this
    exact ⟨v, hv, hvals _ _ v hv⟩
  have hsub : l ⊆ nums19.map some := by
    intro x hx
    rw [hl, List.mem_map] at hx
    obtain ⟨i, hi, rfl⟩ := hx
    rw [List.mem_range] at hi
    obtain ⟨v, hv, hvm⟩ := hsome i hi
    rw [hv]
    exact List.mem_map_of_mem some hvm
  have hnodup : l.Nodup := by
    rw [hl]
    refine List.Nodup.map_on ?_ (List.nodup_range 9)
    intro i hi j hj heq
    rw [List.mem_range] at hi hj
    by_contra hij
    obtain ⟨v, hv, -⟩ := hsome i hi
    obtain ⟨w, hw, -⟩ := hsome j hj
    rw [hv, hw] at heq
    obtain rfl := Option.some.inj heq
    obtain ⟨hbi1, hbi2⟩ := hb i hi
    obtain ⟨hbj1, hbj2⟩ := hb j hj
    exact consistent_conflict hcons hbi1 hbi2 hbj1 hbj2
      (hinj i hi j hj hij) (hunit i hi j hj) hv hw
  have hperm : l.Perm (nums19.map some) := by
    have hsp : l.Subperm (nums19.map some) :=
      List.subperm_of_subset hnodup hsub
    refine hsp.perm_of_length_le ?_
    rw [hl]
    simp [nums19]
  unfold linePerm19
  rw [List.all_eq_true]
  intro k hk
  rw [List.mem_range] at hk
  rw [beq_iff_eq, List.count_eq_countP, hperm.countP_eq]
  revert k
  decide

theorem gridValid_of_full {g : Grid} (hwf : gridWF g) (hcons : Consistent g)
    (hvals : Vals19 g) (hfull : gridFull g = true) : gridValid g = true := by
  unfold gridValid
  rw [List.all_eq_true]
  intro i hi
  rw [List.mem_range] at hi
  have hrow : linePerm19 (rowCells g i) = true := by
    have h := linePerm19_of_unit hwf hcons hvals hfull (fun c => (i, c))
      (fun j hj => ⟨hi, hj⟩)
      (fun j _ j' _ hne => Or.inr hne)
      (fun j _ j' _ => Or.inl rfl)
    simpa [rowCells] using h
  have hcol : linePerm19 (colCells g i) = true := by
    have h := linePerm19_of_unit hwf hcons hvals hfull (fun r => (r, i))
      (fun j hj => ⟨hj, hi⟩)
      (fun j _ j' _ hne => Or.inl hne)
      (fun j _ j' _ => Or.inr (Or.inl rfl))
    simpa [colCells] using h
  have hbox : linePerm19 (boxCells g i) = true := by
    have h := linePerm19_of_unit hwf hcons hvals hfull
      (fun k => (i / 3 * 3 + k / 3, i % 3 * 3 + k % 3))
      (fun j hj => ⟨by dsimp only; omega, by dsimp only; omega⟩)
      (fun j hj j' hj' hne => by dsimp only; omega)
      (fun j hj j' hj' => by
        dsimp only [sameUnit]
        omega)
    simpa [boxCells] using h
  simp [hrow, hcol, hbox]

theorem cells19_of_full {g : Grid} (hvals : Vals19 g)
    (hfull : gridFull g = true) : cells19 g = true := by
  unfold cells19
  rw [List.all_eq_true]
  intro row hrow
  rw [List.all_eq_true]
  intro cell hcell
  unfold gridFull at hfull
  rw [List.all_eq_true] at hfull
  have hsome := hfull row hrow
  rw [List.all_eq_true] at hsome
  have hs := hsome cell hcell
  obtain ⟨i, hi, rfl⟩ := List.mem_iff_getElem.mp hrow
  obtain ⟨j, hj, rfl⟩ := List.mem_iff_getElem.mp hcell
  have hca : cellAt g i j = g[i][j] := by
    unfold cellAt
    rw [getD_eq_getElem g i [] hi]
    exact getD_eq_getElem _ j none hj
  obtain ⟨v, hv⟩ := Option.isSome_iff_exists.mp hs
  have hvm := hvals i j v (by rw [hca, hv])
  rw [hv]
  rw [mem_nums19] at hvm
  simp only [cellIn19, Bool.and_eq_true, decide_eq_true_eq]
  omega

theorem getD_replicate {α : Type _} (n : Nat) (a d : α) (i : Nat)
    (h : i < n) : (List.replicate n a).getD i d = a := by
  induction n generalizing i with
  | zero => omega
  | succ m ih =>
    cases i with
    | zero => simp [List.replicate, List.getD]
    | succ j =>
      simp only [List.replicate, List.getD_cons_succ]
      exact ih j (by omega)

theorem cellAt_emptyGrid (r c : Nat) : cellAt emptyGrid r c = none := by
  unfold cellAt emptyGrid
  rcases Nat.lt_or_ge r 9 with hr | hr
  · rw [getD_replicate 9 _ [] r hr]
    rcases Nat.lt_or_ge c 9 with hc | hc
    · exact getD_replicate 9 _ none c hc
    · exact getD_of_length_le _ c none (by simp; omega)
  · rw [getD_of_length_le _ r [] (by simp; omega)]
    exact getD_of_length_le [] c none (by simp)

theorem gridWF_emptyGrid : gridWF emptyGrid := by
  constructor
  · simp [emptyGrid]
  · intro row hrow
    rw [List.eq_of_mem_replicate hrow]
    simp

/-- A concrete solved grid, used to witness that the empty grid always
has a completion. -/
def solvedGrid : Grid :=
  (List.range 9).map fun r => (List.range 9).map fun c =>
    some ((3 * (r % 3) + r / 3 + c) % 9 + 1)

theorem solvedGrid_solved : Solved solvedGrid :=
  ⟨by decide, consistentB_imp (by decide), by decide⟩

theorem completable_emptyGrid : Completable emptyGrid :=
  ⟨solvedGrid, solvedGrid_solved, fun r c v hv => by
    rw [cellAt_emptyGrid] at hv
    cases hv⟩

/-- The generated grid is 9×9, entirely filled with values 1-9, and every
row, column and 3×3 box contains each of 1-9 exactly once — for every
possible behaviour of the shuffle oracle (each shuffle a permutation of
`[1..9]`, as `sort` guarantees). -/
theorem generateSudokuGrid_spec (rnd : Nat → List Nat)
    (hrnd : ∀ k, (rnd k).Perm nums19) :
    gridWF (generateSudokuGrid rnd) ∧
      cells19 (generateSudokuGrid rnd) = true ∧
      gridFull (generateSudokuGrid rnd) = true ∧
      gridValid (generateSudokuGrid rnd) = true := by
  have hrnd2 : ∀ k', ∀ n ∈ rnd k', n ∈ nums19 :=
    fun k' n hn => ((hrnd k').mem_iff).mp hn
  have hconsE : Consistent emptyGrid :=
    fun r _ c _ r' _ c' _ _ _ => Or.inl (cellAt_emptyGrid r c)
  have hvalsE : Vals19 emptyGrid := fun r c v hv => by
    rw [cellAt_emptyGrid] at hv
    cases hv
  obtain ⟨full, hfull_eq⟩ := fillGrid_complete hrnd (noneCount emptyGrid)
    emptyGrid 0 rfl gridWF_emptyGrid completable_emptyGrid
  obtain ⟨⟨hwf, hcons, hvals⟩, hfl⟩ := fillGrid_sound (noneCount emptyGrid)
    emptyGrid 0 full rfl hrnd2 ⟨gridWF_emptyGrid, hconsE, hvalsE⟩ hfull_eq
  have hgen : generateSudokuGrid rnd = full := by
    unfold generateSudokuGrid
    rw [hfull_eq]
  rw [hgen]
  exact ⟨hwf, cells19_of_full hvals hfl, hfl,
    gridValid_of_full hwf hcons hvals hfl⟩

/-! The puzzle deriver (`createPuzzle` in the source).  The random draws
`Math.floor(Math.random() * 9)` always land in `0..8`, so the stream of
`(row, col)` picks is modelled as an explicit list of `Fin 9 × Fin 9`
pairs (a finite prefix of the random stream).  The `while (attempts > 0)`
loop consumes one pick per iteration; decrementing `attempts` only when
the picked cell was still filled.  If the prefix is exhausted with
attempts remaining the result is `none`: no finite amount of randomness
finished the loop. -/
def createPuzzle : List (Fin 9 × Fin 9) → Grid → Nat → Option Grid
  | _, puzzle, 0 => some puzzle
  | [], _, _ + 1 => none
  | rc :: rest, puzzle, a + 1 =>
    if cellAt puzzle rc.1.val rc.2.val ≠ none then
      createPuzzle rest (setCell puzzle rc.1.val rc.2.val none) a
    else
      createPuzzle rest puzzle (a + 1)

theorem countP_set_grow {α : Type _} (p : α → Bool) (l : List α) (i : Nat)
    (v d : α) (hi : i < l.length) (hpi : p (l.getD i d) = false)
    (hpv : p v = true) : (l.set i v).countP p = l.countP p + 1 := by
  have h := countP_set p l i v d hi
  rw [hpi, hpv] at h
  simpa using h

theorem noneCount_setCell_none {g : Grid} {r c : Nat}
    (hfilled : cellAt g r c ≠ none) :
    noneCount (setCell g r c none) = noneCount g + 1 := by
  obtain ⟨hr, hc⟩ := cellAt_pos_of_ne_none hfilled
  have hpi : ((g.getD r []).getD c none).isNone = false := by
    have h : cellAt g r c ≠ none := hfilled
    unfold cellAt at h
    cases hcv : (g.getD r []).getD c none with
    | none => exact absurd hcv h
    | some v => rfl
  have hrow := countP_set_grow (fun cell => cell.isNone) (g.getD r []) c
    none none hc hpi rfl
  have hg := noneCount_set_row g r ((g.getD r []).set c none) hr
  unfold setCell
  omega

theorem noneCount_eq_zero_of_full {g : Grid} (hfull : gridFull g = true) :
    noneCount g = 0 := by
  unfold gridFull at hfull
  rw [List.all_eq_true] at hfull
  unfold noneCount
  apply List.sum_eq_zero
  intro x hx
  rw [List.mem_map] at hx
  obtain ⟨row, hrow, rfl⟩ := hx
  rw [List.countP_eq_zero]
  intro cell hcell
  have h := hfull row hrow
  rw [List.all_eq_true] at h
  have := h cell hcell
  simp only [Option.isNone, Bool.not_eq_true]
  cases cell with
  | none => exact absurd this (by simp)
  | some v => rfl

/-- Conditioned on the retry loop finishing, `createPuzzle` blanks exactly
`difficulty` cells and leaves every other cell of its input unchanged. -/
theorem createPuzzle_spec :
    ∀ (picks : List (Fin 9 × Fin 9)) (g : Grid) (n : Nat) (p : Grid),
      createPuzzle picks g n = some p →
      noneCount p = noneCount g + n ∧
      (∀ r c v, cellAt p r c = some v → cellAt g r c = some v) := by
  intro picks
  induction picks with
  | nil =>
    intro g n p heq
    cases n with
    | zero =>
      obtain rfl : g = p := by injection heq
      exact ⟨rfl, fun _ _ _ h => h⟩
    | succ m => exact absurd heq (by rw [createPuzzle]; simp)
  | cons rc rest ih =>
    intro g n p heq
    cases n with
    | zero =>
      obtain rfl : g = p := by injection heq
      exact ⟨rfl, fun _ _ _ h => h⟩
    | succ m =>
      rw [createPuzzle] at heq
      by_cases hcell : cellAt g rc.1.val rc.2.val ≠ none
      · rw [if_pos hcell] at heq
        obtain ⟨hcount, hpres⟩ := ih _ _ _ heq
        have hset := noneCount_setCell_none hcell
        obtain ⟨hr, hc⟩ := cellAt_pos_of_ne_none hcell
        refine ⟨by omega, ?_⟩
        intro r c v hv
        rcases cellAt_setCell_cases (none : Cell) r c hr hc with ⟨hnone, -, -⟩
          | hsame
        · rw [hpres r c v hv] at hnone
          cases hnone
        · rw [← hsame]
          exact hpres r c v hv
      · rw [if_neg hcell] at heq
        exact ih _ _ _ heq

/-- If `difficulty` exceeds the number of filled cells, no finite amount
of randomness makes the retry loop finish: the JS `while` loop runs
forever. -/
theorem createPuzzle_overrun :
    ∀ (picks : List (Fin 9 × Fin 9)) (g : Grid) (n : Nat),
      filledCount g < n → createPuzzle picks g n = none := by
  intro picks
  induction picks with
  | nil =>
    intro g n hlt
    cases n with
    | zero => omega
    | succ m => rw [createPuzzle]
  | cons rc rest ih =>
    intro g n hlt
    cases n with
    | zero => omega
    | succ m =>
      rw [createPuzzle]
      by_cases hcell : cellAt g rc.1.val rc.2.val ≠ none
      · rw [if_pos hcell]
        apply ih
        obtain ⟨hr, hc⟩ := cellAt_pos_of_ne_none hcell
        have := filledCount_setCell_none hcell hr hc
        omega
      · rw [if_neg hcell]
        exact ih _ _ hlt

/-! The session state machine: the `App` component state and its
handlers.  `Alert.alert` only displays a message, so the embedding keeps
the state unchanged on those paths. -/

/-- The React component state of `App`. -/
structure Session where
  solution : Grid
  originalPuzzle : Grid
  puzzle : Grid
  history : List Grid
  historyIndex : Nat
  selectedCell : Option (Nat × Nat)
deriving DecidableEq

/-- The initial `useState` wiring: `originalPuzzle = createPuzzle(solution, 40)`,
`puzzle` a fresh copy of it, `history = [originalPuzzle]`, index 0, no
selection. -/
def initSession (sol orig : Grid) : Session :=
  { solution := sol, originalPuzzle := orig, puzzle := orig,
    history := [orig], historyIndex := 0, selectedCell := none }

/-- `handleCellClick`. JS evaluates `originalPuzzle[row][col]`: if `row`
is out of range, `originalPuzzle[row]` is `undefined` and the inner index
throws a TypeError — modelled by `none`.  If only `col` is out of range
the cell reads as `undefined`, which is `!== null`, so the handler
returns without selecting. -/
def handleCellClick (s : Session) (row col : Nat) : Option Session :=
  match s.originalPuzzle[row]? with
  | none => none
  | some rowArr =>
    match rowArr[col]? with
    | none => some s
    | some cell =>
      if cell ≠ none then some s
      else some { s with selectedCell := some (row, col) }

/-- `handleNumberClick`: with no selection, only an alert is shown; with a
selection on an editable cell, write the value into a copy of the puzzle,
truncate the history after the cursor, append the new snapshot and move
the cursor to it. -/
def handleNumberClick (s : Session) (num : Nat) : Session :=
  match s.selectedCell with
  | none => s
  | some (row, col) =>
    if cellAt s.originalPuzzle row col = none then
      let newPuzzle := setCell s.puzzle row col (some num)
      let newHistory := s.history.take (s.historyIndex + 1) ++ [newPuzzle]
      { s with puzzle := newPuzzle, history := newHistory,
               historyIndex := newHistory.length - 1, selectedCell := none }
    else s

/-- `undo`. -/
def undo (s : Session) : Session :=
  if 0 < s.historyIndex then
    { s with historyIndex := s.historyIndex - 1,
             puzzle := s.history.getD (s.historyIndex - 1) [] }
  else s

/-- `redo`. -/
def redo (s : Session) : Session :=
  if s.historyIndex < s.history.length - 1 then
    { s with historyIndex := s.historyIndex + 1,
             puzzle := s.history.getD (s.historyIndex + 1) [] }
  else s

/-- `reset`: note the source calls `createPuzzle(solution, 40)` twice —
once for the new puzzle and once, independently, for the history — so the
two grids are produced from two independent random draws (`p1`, `p2`). -/
def reset (s : Session) (p1 p2 : List (Fin 9 × Fin 9)) : Option Session :=
  match createPuzzle p1 s.solution 40, createPuzzle p2 s.solution 40 with
  | some g1, some g2 =>
    some { s with puzzle := g1, history := [g2], historyIndex := 0 }
  | _, _ => none

/-- Inner `row.map((cell, colIndex) => ...)` of `clearUserInputs`,
with the column index made explicit. -/
def clearRow (orig : Grid) (r : Nat) : Nat → List Cell → List Cell
  | _, [] => []
  | c, cell :: rest =>
    (if cellAt orig r c = none then none else cell) ::
      clearRow orig r (c + 1) rest

/-- Outer `puzzle.map((row, rowIndex) => ...)` of `clearUserInputs`. -/
def clearCells (orig : Grid) : Nat → Grid → Grid
  | _, [] => []
  | r, row :: rest => clearRow orig r 0 row :: clearCells orig (r + 1) rest

/-- `clearUserInputs`: blank every cell that is editable in
`originalPuzzle`, keep the rest of the current puzzle, and reset the
history to that single snapshot. -/
def clearUserInputs (s : Session) : Session :=
  let cleared := clearCells s.originalPuzzle 0 s.puzzle
  { s with puzzle := cleared, history := [cleared], historyIndex := 0 }

/-- The `Generate New Puzzle` button: fresh solution, fresh puzzle, reset
history (the selection is left as is, as in the source). -/
def regenerate (s : Session) (rnd : Nat → List Nat)
    (p : List (Fin 9 × Fin 9)) : Option Session :=
  let newSolution := generateSudokuGrid rnd
  match createPuzzle p newSolution 40 with
  | some newOrig =>
    some { solution := newSolution, originalPuzzle := newOrig,
           puzzle := newOrig, history := [newOrig], historyIndex := 0,
           selectedCell := s.selectedCell }
  | none => none

/-- One user-level operation of the session (§4.4 of the spec). -/
inductive Op where
  | select (row col : Nat)
  | enter (num : Nat)
  | undoMove
  | redoMove
  | resetGame (p1 p2 : List (Fin 9 × Fin 9))
  | clearInputs
  | regen (rnd : Nat → List Nat) (p : List (Fin 9 × Fin 9))

def applyOp (s : Session) : Op → Option Session
  | .select row col => handleCellClick s row col
  | .enter num => some (handleNumberClick s num)
  | .undoMove => some (undo s)
  | .redoMove => some (redo s)
  | .resetGame p1 p2 => reset s p1 p2
  | .clearInputs => some (clearUserInputs s)
  | .regen rnd p => regenerate s rnd p

def applyOps : Session → List Op → Option Session
  | s, [] => some s
  | s, op :: rest =>
    match applyOp s op with
    | some s' => applyOps s' rest
    | none => none

/-- Selection, value entry, undo or redo (the operations of claim C3). -/
def Op.isMove : Op → Bool
  | .select _ _ => true
  | .enter _ => true
  | .undoMove => true
  | .redoMove => true
  | _ => false

def Op.isReset : Op → Bool
  | .resetGame _ _ => true
  | _ => false

/-- The history-log invariant: the cursor is a valid index, the log is
non-empty, and the snapshot under the cursor is the current puzzle. -/
def HistInv (s : Session) : Prop :=
  s.historyIndex < s.history.length ∧ s.history ≠ [] ∧
    s.history.getD s.historyIndex [] = s.puzzle

theorem getD_append_length {α : Type _} (l : List α) (x d : α) :
    (l ++ [x]).getD l.length d = x := by
  induction l with
  | nil => simp [List.getD]
  | cons a t ih =>
    simp only [List.cons_append, List.length_cons, List.getD_cons_succ]
    exact ih

theorem handleCellClick_frame {s s' : Session} {row col : Nat}
    (h : handleCellClick s row col = some s') :
    s'.solution = s.solution ∧ s'.originalPuzzle = s.originalPuzzle ∧
    s'.puzzle = s.puzzle ∧ s'.history = s.history ∧
    s'.historyIndex = s.historyIndex := by
  unfold handleCellClick at h
  split at h
  · cases h
  · split at h
    · obtain rfl := Option.some.inj h
      exact ⟨rfl, rfl, rfl, rfl, rfl⟩
    · split at h
      · obtain rfl := Option.some.inj h
        exact ⟨rfl, rfl, rfl, rfl, rfl⟩
      · obtain rfl := Option.some.inj h
        exact ⟨rfl, rfl, rfl, rfl, rfl⟩

/-- With a valid selection, `handleNumberClick` performs the snapshot
append described in the spec. -/
theorem handleNumberClick_active {s : Session} {row col : Nat} (num : Nat)
    (hsel : s.selectedCell = some (row, col))
    (hedit : cellAt s.originalPuzzle row col = none) :
    handleNumberClick s num =
      { s with puzzle := setCell s.puzzle row col (some num),
               history := s.history.take (s.historyIndex + 1) ++
                 [setCell s.puzzle row col (some num)],
               historyIndex := (s.history.take (s.historyIndex + 1) ++
                 [setCell s.puzzle row col (some num)]).length - 1,
               selectedCell := none } := by
  unfold handleNumberClick
  rw [hsel]
  dsimp only
  rw [if_pos hedit]

theorem handleNumberClick_no_selection {s : Session} (num : Nat)
    (hsel : s.selectedCell = none) : handleNumberClick s num = s := by
  unfold handleNumberClick
  rw [hsel]

theorem handleNumberClick_given {s : Session} {row col : Nat} (num : Nat)
    (hsel : s.selectedCell = some (row, col))
    (hgiven : cellAt s.originalPuzzle row col ≠ none) :
    handleNumberClick s num = s := by
  unfold handleNumberClick
  rw [hsel]
  dsimp only
  rw [if_neg hgiven]

theorem getD_append_last {α : Type _} (l : List α) (x d : α) :
    (l ++ [x]).getD ((l ++ [x]).length - 1) d = x := by
  rw [List.length_append]
  simp only [List.length_cons, List.length_nil]
  have h : l.length + (0 + 1) - 1 = l.length := by omega
  rw [h]
  exact getD_append_length l x d

theorem histInv_select {s s' : Session} {row col : Nat}
    (h : handleCellClick s row col = some s') (hinv : HistInv s) :
    HistInv s' := by
  obtain ⟨-, -, h3, h4, h5⟩ := handleCellClick_frame h
  unfold HistInv
  rw [h3, h4, h5]
  exact hinv

theorem histInv_enter {s : Session} (num : Nat) (hinv : HistInv s) :
    HistInv (handleNumberClick s num) := by
  obtain ⟨hlt, hne, hcur⟩ := hinv
  cases hsel : s.selectedCell with
  | none =>
    rw [handleNumberClick_no_selection num hsel]
    exact ⟨hlt, hne, hcur⟩
  | some rc =>
    obtain ⟨row, col⟩ := rc
    by_cases hedit : cellAt s.originalPuzzle row col = none
    · rw [handleNumberClick_active num hsel hedit]
      refine ⟨?_, ?_, ?_⟩
      · simp only [List.length_append, List.length_cons, List.length_nil]
        omega
      · simp
      · exact getD_append_last _ _ _
    · rw [handleNumberClick_given num hsel hedit]
      exact ⟨hlt, hne, hcur⟩

theorem histInv_undo {s : Session} (hinv : HistInv s) : HistInv (undo s) := by
  obtain ⟨hlt, hne, hcur⟩ := hinv
  unfold undo
  by_cases h : 0 < s.historyIndex
  · rw [if_pos h]
    exact ⟨by simp; omega, hne, rfl⟩
  · rw [if_neg h]
    exact ⟨hlt, hne, hcur⟩

theorem histInv_redo {s : Session} (hinv : HistInv s) : HistInv (redo s) := by
  obtain ⟨hlt, hne, hcur⟩ := hinv
  unfold redo
  by_cases h : s.historyIndex < s.history.length - 1
  · rw [if_pos h]
    exact ⟨by simp; omega, hne, rfl⟩
  · rw [if_neg h]
    exact ⟨hlt, hne, hcur⟩

theorem histInv_move {s s' : Session} {op : Op} (hmv : op.isMove = true)
    (happ : applyOp s op = some s') (hinv : HistInv s) : HistInv s' := by
  cases op with
  | select row col => exact histInv_select happ hinv
  | enter num =>
    obtain rfl := Option.some.inj happ
    exact histInv_enter num hinv
  | undoMove =>
    obtain rfl := Option.some.inj happ
    exact histInv_undo hinv
  | redoMove =>
    obtain rfl := Option.some.inj happ
    exact histInv_redo hinv
  | resetGame p1 p2 => exact absurd hmv (by simp [Op.isMove])
  | clearInputs => exact absurd hmv (by simp [Op.isMove])
  | regen rnd p => exact absurd hmv (by simp [Op.isMove])

theorem histInv_moves :
    ∀ (ops : List Op) (s s' : Session), (∀ op ∈ ops, op.isMove = true) →
      applyOps s ops = some s' → HistInv s → HistInv s' := by
  intro ops
  induction ops with
  | nil =>
    intro s s' _ happ hinv
    obtain rfl := Option.some.inj happ
    exact hinv
  | cons op rest ih =>
    intro s s' hops happ hinv
    unfold applyOps at happ
    cases hstep : applyOp s op with
    | none => rw [hstep] at happ; cases happ
    | some s1 =>
      rw [hstep] at happ
      exact ih s1 s' (fun o ho => hops o (by simp [ho]))
        happ (histInv_move (hops op (by simp)) hstep hinv)

theorem clearRow_getD (orig : Grid) (r : Nat) :
    ∀ (row : List Cell) (c0 j : Nat),
      (clearRow orig r c0 row).getD j none =
        if cellAt orig r (c0 + j) = none then none else row.getD j none := by
  intro row
  induction row with
  | nil =>
    intro c0 j
    rw [clearRow]
    split <;> rfl
  | cons cell rest ih =>
    intro c0 j
    rw [clearRow]
    cases j with
    | zero => simp [List.getD]
    | succ j' =>
      simp only [List.getD_cons_succ]
      rw [ih (c0 + 1) j']
      have h : c0 + 1 + j' = c0 + (j' + 1) := by omega
      rw [h]

theorem clearRow_length (orig : Grid) (r : Nat) :
    ∀ (row : List Cell) (c0 : Nat),
      (clearRow orig r c0 row).length = row.length := by
  intro row
  induction row with
  | nil => intro c0; rw [clearRow]
  | cons cell rest ih =>
    intro c0
    rw [clearRow]
    simp [ih (c0 + 1)]

theorem clearCells_length (orig : Grid) :
    ∀ (g : Grid) (r0 : Nat), (clearCells orig r0 g).length = g.length := by
  intro g
  induction g with
  | nil => intro r0; rw [clearCells]
  | cons row rest ih =>
    intro r0
    rw [clearCells]
    simp [ih (r0 + 1)]

theorem clearCells_mem (orig : Grid) :
    ∀ (g : Grid) (r0 : Nat) (row' : List Cell),
      row' ∈ clearCells orig r0 g →
      ∃ r row, row ∈ g ∧ row' = clearRow orig r 0 row := by
  intro g
  induction g with
  | nil => intro r0 row' h; rw [clearCells] at h; cases h
  | cons row rest ih =>
    intro r0 row' h
    rw [clearCells] at h
    rcases List.mem_cons.mp h with rfl | hmem
    · exact ⟨r0, row, by simp, rfl⟩
    · obtain ⟨r, row2, hrow2, heq⟩ := ih (r0 + 1) row' hmem
      exact ⟨r, row2, by simp [hrow2], heq⟩

theorem gridWF_clearCells {orig g : Grid} (hwf : gridWF g) :
    gridWF (clearCells orig 0 g) := by
  constructor
  · rw [clearCells_length orig g 0]
    exact hwf.1
  · intro row' hrow'
    obtain ⟨r, row, hrow, rfl⟩ := clearCells_mem orig g 0 row' hrow'
    rw [clearRow_length orig r row 0]
    exact hwf.2 row hrow

theorem cellAt_clearCells (orig : Grid) :
    ∀ (g : Grid) (r0 i j : Nat),
      cellAt (clearCells orig r0 g) i j =
        if cellAt orig (r0 + i) j = none then none else cellAt g i j := by
  intro g
  induction g with
  | nil =>
    intro r0 i j
    rw [clearCells]
    unfold cellAt
    split <;> rfl
  | cons row rest ih =>
    intro r0 i j
    rw [clearCells]
    cases i with
    | zero =>
      unfold cellAt
      simp only [List.getD_cons_zero]
      have h := clearRow_getD orig r0 row 0 j
      simp only [Nat.zero_add] at h
      rw [Nat.add_zero]
      exact h
    | succ i' =>
      unfold cellAt
      simp only [List.getD_cons_succ]
      have h := ih (r0 + 1) i' j
      unfold cellAt at h
      rw [h]
      have he : r0 + 1 + i' = r0 + (i' + 1) := by omega
      rw [he]

theorem createPuzzle_wf :
    ∀ (picks : List (Fin 9 × Fin 9)) (g : Grid) (n : Nat) (p : Grid),
      createPuzzle picks g n = some p → gridWF g → gridWF p := by
  intro picks
  induction picks with
  | nil =>
    intro g n p heq hwf
    cases n with
    | zero =>
      obtain rfl : g = p := by injection heq
      exact hwf
    | succ m => exact absurd heq (by rw [createPuzzle]; simp)
  | cons rc rest ih =>
    intro g n p heq hwf
    cases n with
    | zero =>
      obtain rfl : g = p := by injection heq
      exact hwf
    | succ m =>
      rw [createPuzzle] at heq
      by_cases hcell : cellAt g rc.1.val rc.2.val ≠ none
      · rw [if_pos hcell] at heq
        exact ih _ _ _ heq (gridWF_setCell _ _ _ hwf)
      · rw [if_neg hcell] at heq
        exact ih _ _ _ heq hwf

theorem tryNums_wf {rnd : Nat → List Nat} {g : Grid} {r c : Nat}
    {hr : r < g.length} {hc : c < (g.getD r []).length}
    {hempty : cellAt g r c = none} :
    ∀ (cands : List Nat) (k : Nat) (full : Grid),
      (∀ g' k' full', noneCount g' < noneCount g → gridWF g' →
        fillGrid rnd g' k' = Sum.inl full' → gridWF full') →
      gridWF g →
      tryNums rnd g r c hr hc hempty k cands = Sum.inl full →
      gridWF full := by
  intro cands
  induction cands with
  | nil =>
    intro k full _ _ heq
    rw [tryNums] at heq
    exact absurd heq (by simp)
  | cons n rest ih =>
    intro k full hfg hwf heq
    rw [tryNums] at heq
    by_cases hvalid : isValidPlacement g r c n = true
    · rw [if_pos hvalid] at heq
      have hlt : noneCount (setCell g r c (some n)) < noneCount g := by
        have := noneCount_setCell_some n hempty hr hc
        omega
      cases hfg2 : fillGrid rnd (setCell g r c (some n)) k with
      | inl full' =>
        rw [hfg2] at heq
        obtain rfl : full' = full := by injection heq
        exact hfg _ _ _ hlt (gridWF_setCell r c _ hwf) hfg2
      | inr k2 =>
        rw [hfg2] at heq
        exact ih k2 full hfg hwf heq
    · rw [if_neg hvalid] at heq
      exact ih k full hfg hwf heq

theorem fillGrid_wf {rnd : Nat → List Nat} :
    ∀ (N : Nat) (g : Grid) (k : Nat) (full : Grid), noneCount g = N →
      gridWF g → fillGrid rnd g k = Sum.inl full → gridWF full := by
  intro N
  induction N using Nat.strong_induction_on with
  | _ N IH =>
    intro g k full hN hwf heq
    rw [fillGrid] at heq
    split at heq
    next hfe =>
      obtain rfl : g = full := by injection heq
      exact hwf
    next r c hfe =>
      refine tryNums_wf _ _ _ ?_ hwf heq
      intro g' k' full' hlt hwf' heq'
      exact IH (noneCount g') (by omega) g' k' full' rfl hwf' heq'

theorem generateSudokuGrid_wf (rnd : Nat → List Nat) :
    gridWF (generateSudokuGrid rnd) := by
  unfold generateSudokuGrid
  split
  next g hfg =>
    exact fillGrid_wf (noneCount emptyGrid) _ _ _ rfl gridWF_emptyGrid hfg
  next k hfg =>
    exact gridWF_emptyGrid

/-- Master invariant of a session: shapes are 9×9, the history invariant
holds, and the given cells of `originalPuzzle` carry the solution's value
in the original puzzle, the current puzzle, and every history snapshot. -/
def GoodState (s : Session) : Prop :=
  gridWF s.originalPuzzle ∧ gridWF s.puzzle ∧ (∀ g ∈ s.history, gridWF g) ∧
  HistInv s ∧
  (∀ r c, cellAt s.originalPuzzle r c ≠ none →
    cellAt s.originalPuzzle r c = cellAt s.solution r c) ∧
  (∀ r c, cellAt s.originalPuzzle r c ≠ none →
    cellAt s.puzzle r c = cellAt s.solution r c) ∧
  (∀ g ∈ s.history, ∀ r c, cellAt s.originalPuzzle r c ≠ none →
    cellAt g r c = cellAt s.solution r c)

theorem goodState_init {sol orig : Grid} {picks : List (Fin 9 × Fin 9)}
    (hwf : gridWF sol) (hinit : createPuzzle picks sol 40 = some orig) :
    GoodState (initSession sol orig) := by
  have hpres := (createPuzzle_spec picks sol 40 orig hinit).2
  have hOS : ∀ r c, cellAt orig r c ≠ none →
      cellAt orig r c = cellAt sol r c := by
    intro r c hne
    cases hv : cellAt orig r c with
    | none => exact absurd hv hne
    | some v => exact (hpres r c v hv).symm
  refine ⟨createPuzzle_wf picks sol 40 orig hinit hwf,
    createPuzzle_wf picks sol 40 orig hinit hwf, ?_, ⟨by simp [initSession],
    by simp [initSession], rfl⟩, hOS, hOS, ?_⟩
  · intro g hg
    rw [show g = orig by simpa [initSession] using hg]
    exact createPuzzle_wf picks sol 40 orig hinit hwf
  · intro g hg
    rw [show g = orig by simpa [initSession] using hg]
    exact hOS

theorem goodState_select {s s' : Session} {row col : Nat}
    (h : handleCellClick s row col = some s') (hg : GoodState s) :
    GoodState s' := by
  obtain ⟨h1, h2, h3, h4, h5⟩ := handleCellClick_frame h
  unfold GoodState HistInv
  rw [h1, h2, h3, h4, h5]
  exact hg

theorem goodState_enter {s : Session} (num : Nat) (hg : GoodState s) :
    GoodState (handleNumberClick s num) := by
  obtain ⟨hwfO, hwfP, hwfH, hinv, hOS, hPS, hHS⟩ := hg
  cases hsel : s.selectedCell with
  | none =>
    rw [handleNumberClick_no_selection num hsel]
    exact ⟨hwfO, hwfP, hwfH, hinv, hOS, hPS, hHS⟩
  | some rc =>
    obtain ⟨row, col⟩ := rc
    by_cases hedit : cellAt s.originalPuzzle row col = none
    · have hne : ∀ r c, cellAt s.originalPuzzle r c ≠ none →
          (row ≠ r ∨ col ≠ c) := by
        intro r c hgiven
        by_contra hcon
        push_neg at hcon
        rw [← hcon.1, ← hcon.2] at hgiven
        exact hgiven hedit
      have hPS' : ∀ r c, cellAt s.originalPuzzle r c ≠ none →
          cellAt (setCell s.puzzle row col (some num)) r c
            = cellAt s.solution r c := by
        intro r c hgiven
        rw [cellAt_setCell_ne _ (hne r c hgiven)]
        exact hPS r c hgiven
      rw [handleNumberClick_active num hsel hedit]
      refine ⟨hwfO, gridWF_setCell _ _ _ hwfP, ?_,
        (by rw [← handleNumberClick_active num hsel hedit]
            exact histInv_enter num hinv), hOS, hPS', ?_⟩
      · intro g hgmem
        rcases List.mem_append.mp hgmem with hmem | hmem
        · exact hwfH g (List.take_subset _ _ hmem)
        · rw [show g = setCell s.puzzle row col (some num) by simpa using hmem]
          exact gridWF_setCell _ _ _ hwfP
      · intro g hgmem r c hgiven
        rcases List.mem_append.mp hgmem with hmem | hmem
        · exact hHS g (List.take_subset _ _ hmem) r c hgiven
        · rw [show g = setCell s.puzzle row col (some num) by simpa using hmem]
          exact hPS' r c hgiven
    · rw [handleNumberClick_given num hsel hedit]
      exact ⟨hwfO, hwfP, hwfH, hinv, hOS, hPS, hHS⟩

theorem goodState_undo {s : Session} (hg : GoodState s) :
    GoodState (undo s) := by
  obtain ⟨hwfO, hwfP, hwfH, hinv, hOS, hPS, hHS⟩ := hg
  unfold undo
  by_cases h : 0 < s.historyIndex
  · rw [if_pos h]
    have hidx : s.historyIndex - 1 < s.history.length := by
      have := hinv.1
      omega
    have hmem : s.history.getD (s.historyIndex - 1) [] ∈ s.history :=
      getD_mem_of_lt _ _ _ hidx
    exact ⟨hwfO, hwfH _ hmem, hwfH, ⟨hidx, hinv.2.1, rfl⟩, hOS,
      fun r c hgiven => hHS _ hmem r c hgiven, hHS⟩
  · rw [if_neg h]
    exact ⟨hwfO, hwfP, hwfH, hinv, hOS, hPS, hHS⟩

theorem goodState_redo {s : Session} (hg : GoodState s) :
    GoodState (redo s) := by
  obtain ⟨hwfO, hwfP, hwfH, hinv, hOS, hPS, hHS⟩ := hg
  unfold redo
  by_cases h : s.historyIndex < s.history.length - 1
  · rw [if_pos h]
    have hidx : s.historyIndex + 1 < s.history.length := by omega
    have hmem : s.history.getD (s.historyIndex + 1) [] ∈ s.history :=
      getD_mem_of_lt _ _ _ hidx
    exact ⟨hwfO, hwfH _ hmem, hwfH, ⟨hidx, hinv.2.1, rfl⟩, hOS,
      fun r c hgiven => hHS _ hmem r c hgiven, hHS⟩
  · rw [if_neg h]
    exact ⟨hwfO, hwfP, hwfH, hinv, hOS, hPS, hHS⟩

theorem goodState_clear {s : Session} (hg : GoodState s) :
    GoodState (clearUserInputs s) := by
  obtain ⟨hwfO, hwfP, hwfH, hinv, hOS, hPS, hHS⟩ := hg
  have hcell : ∀ i j, cellAt (clearCells s.originalPuzzle 0 s.puzzle) i j =
      if cellAt s.originalPuzzle i j = none then none
      else cellAt s.puzzle i j := by
    intro i j
    have h := cellAt_clearCells s.originalPuzzle s.puzzle 0 i j
    simpa using h
  have hPS' : ∀ r c, cellAt s.originalPuzzle r c ≠ none →
      cellAt (clearCells s.originalPuzzle 0 s.puzzle) r c
        = cellAt s.solution r c := by
    intro r c hgiven
    rw [hcell r c, if_neg hgiven]
    exact hPS r c hgiven
  unfold clearUserInputs
  refine ⟨hwfO, gridWF_clearCells hwfP, ?_, ⟨by simp, by simp, rfl⟩,
    hOS, hPS', ?_⟩
  · intro g hgmem
    rw [show g = clearCells s.originalPuzzle 0 s.puzzle by simpa using hgmem]
    exact gridWF_clearCells hwfP
  · intro g hgmem
    rw [show g = clearCells s.originalPuzzle 0 s.puzzle by simpa using hgmem]
    exact hPS'

theorem goodState_regen {s s' : Session} {rnd : Nat → List Nat}
    {p : List (Fin 9 × Fin 9)} (h : regenerate s rnd p = some s') :
    GoodState s' := by
  unfold regenerate at h
  dsimp only at h
  split at h
  next newOrig hcp =>
    obtain rfl := Option.some.inj h
    have hwfS : gridWF (generateSudokuGrid rnd) := generateSudokuGrid_wf rnd
    have hwfO : gridWF newOrig := createPuzzle_wf _ _ _ _ hcp hwfS
    have hpres := (createPuzzle_spec _ _ _ _ hcp).2
    have hOS : ∀ r c, cellAt newOrig r c ≠ none →
        cellAt newOrig r c = cellAt (generateSudokuGrid rnd) r c := by
      intro r c hne
      cases hv : cellAt newOrig r c with
      | none => exact absurd hv hne
      | some v => exact (hpres r c v hv).symm
    refine ⟨hwfO, hwfO, ?_, ⟨by simp, by simp, rfl⟩, hOS, hOS, ?_⟩
    · intro g hgmem
      rw [show g = newOrig by simpa using hgmem]
      exact hwfO
    · intro g hgmem
      rw [show g = newOrig by simpa using hgmem]
      exact hOS
  next hcp => cases h

theorem goodState_step {s s' : Session} {op : Op} (hnr : op.isReset = false)
    (happ : applyOp s op = some s') (hg : GoodState s) : GoodState s' := by
  cases op with
  | select row col => exact goodState_select happ hg
  | enter num =>
    obtain rfl := Option.some.inj happ
    exact goodState_enter num hg
  | undoMove =>
    obtain rfl := Option.some.inj happ
    exact goodState_undo hg
  | redoMove =>
    obtain rfl := Option.some.inj happ
    exact goodState_redo hg
  | resetGame p1 p2 => exact absurd hnr (by simp [Op.isReset])
  | clearInputs =>
    obtain rfl := Option.some.inj happ
    exact goodState_clear hg
  | regen rnd p => exact goodState_regen happ

theorem goodState_steps :
    ∀ (ops : List Op) (s s' : Session), (∀ op ∈ ops, op.isReset = false) →
      applyOps s ops = some s' → GoodState s → GoodState s' := by
  intro ops
  induction ops with
  | nil =>
    intro s s' _ happ hg
    obtain rfl := Option.some.inj happ
    exact hg
  | cons op rest ih =>
    intro s s' hops happ hg
    unfold applyOps at happ
    cases hstep : applyOp s op with
    | none => rw [hstep] at happ; cases happ
    | some s1 =>
      rw [hstep] at happ
      exact ih s1 s' (fun o ho => hops o (by simp [ho])) happ
        (goodState_step (hops op (by simp)) hstep hg)

theorem cellAt_eq_getElem {g : Grid} {r c : Nat} (hr : r < g.length)
    (hc : c < g[r].length) : cellAt g r c = g[r][c] := by
  unfold cellAt
  rw [getD_eq_getElem g r [] hr]
  exact getD_eq_getElem _ c none hc

theorem grid_ext {a b : Grid} (ha : gridWF a) (hb : gridWF b)
    (h : ∀ r, r < 9 → ∀ c, c < 9 → cellAt a r c = cellAt b r c) : a = b := by
  have hlen : a.length = b.length := by rw [ha.1, hb.1]
  apply List.ext_getElem hlen
  intro r hr1 hr2
  have hr9 : r < 9 := by rw [← ha.1]; exact hr1
  have hla : a[r].length = 9 := ha.2 _ (List.getElem_mem hr1)
  have hlb : b[r].length = 9 := hb.2 _ (List.getElem_mem hr2)
  apply List.ext_getElem (by rw [hla, hlb])
  intro c hc1 hc2
  have hc9 : c < 9 := by rw [← hla]; exact hc1
  rw [← cellAt_eq_getElem hr1 hc1, ← cellAt_eq_getElem hr2 hc2]
  exact h r hr9 c hc9

/-! Concrete data used for counterexamples and witnesses: a session whose
solution is `solvedGrid` and whose original puzzle blanks the 40 cells of
rows 0-4, columns 0-7. -/

/-- Forty distinct picks: rows 0-4, columns 0-7. -/
def cexPicksA : List (Fin 9 × Fin 9) :=
  (List.range 40).map fun k => (⟨k / 8 % 9, by omega⟩, ⟨k % 8, by omega⟩)

/-- Forty distinct picks: rows 4-8, columns 0-7. -/
def cexPicksB : List (Fin 9 × Fin 9) :=
  (List.range 40).map fun k => (⟨(k / 8 + 4) % 9, by omega⟩, ⟨k % 8, by omega⟩)

def cexOrig : Grid := (createPuzzle cexPicksA solvedGrid 40).getD []

def cexInit : Session := initSession solvedGrid cexOrig

/-- Executable form of the given-cells-match-solution property. -/
def givenRespected (s : Session) : Bool :=
  (List.range 9).all fun r => (List.range 9).all fun c =>
    (cellAt s.originalPuzzle r c == none) ||
      (cellAt s.puzzle r c == cellAt s.solution r c)

def cexOps : List Op := [Op.select 4 0, Op.enter 5, Op.undoMove, Op.redoMove]

def cexAfterMoves : Session := (applyOps cexInit cexOps).getD cexInit

def cexS4 : Session :=
  (applyOps cexInit [Op.select 4 0, Op.enter 1, Op.select 4 1, Op.enter 2,
    Op.undoMove, Op.select 4 2]).getD cexInit

/-! Heap model for the copy made by `createPuzzle` (claim C10).  A store
is a heap of row arrays; a grid value is an array of row addresses.  The
source first builds `puzzle = grid.map(row => [...row])` — fresh rows at
fresh addresses — and then mutates only through `puzzle`'s addresses, so
the rows referenced by the argument grid are untouched. -/

abbrev Store := List (List Cell)

/-- Dereference a row address. -/
def readRow (st : Store) (a : Nat) : List Cell := st.getD a []

/-- Mutate `store[a][c] = v`. -/
def writeCell (st : Store) (a c : Nat) (v : Cell) : Store :=
  st.set a ((readRow st a).set c v)

/-- The removal loop of `createPuzzle`, acting on the store through the
row addresses `addrs` of the freshly copied puzzle. -/
def puzzleLoopH : List (Fin 9 × Fin 9) → Store → List Nat → Nat → Option Store
  | _, st, _, 0 => some st
  | [], _, _, _ + 1 => none
  | rc :: rest, st, addrs, a + 1 =>
    let addr := addrs.getD rc.1.val 0
    if (readRow st addr).getD rc.2.val none ≠ none then
      puzzleLoopH rest (writeCell st addr rc.2.val none) addrs a
    else
      puzzleLoopH rest st addrs (a + 1)

/-- `createPuzzle` in the heap model: copy the rows of the argument grid
to fresh addresses (`grid.map(row => [...row])`), then run the removal
loop on the copy.  Returns the final store and the copy's addresses. -/
def createPuzzleH (picks : List (Fin 9 × Fin 9)) (st : Store)
    (gridAddrs : List Nat) (difficulty : Nat) : Option (Store × List Nat) :=
  let st1 := st ++ gridAddrs.map (readRow st)
  let addrs := List.range' st.length gridAddrs.length
  (puzzleLoopH picks st1 addrs difficulty).map fun st2 => (st2, addrs)

theorem getD_append_lt {α : Type _} (l1 l2 : List α) (a : Nat) (d : α)
    (h : a < l1.length) : (l1 ++ l2).getD a d = l1.getD a d := by
  induction l1 generalizing a with
  | nil => simp at h
  | cons x t ih =>
    cases a with
    | zero => simp [List.getD]
    | succ j =>
      simp only [List.cons_append, List.getD_cons_succ]
      exact ih j (by simpa using h)

theorem puzzleLoopH_frame :
    ∀ (picks : List (Fin 9 × Fin 9)) (st : Store) (addrs : List Nat)
      (d : Nat) (st' : Store) (base : Nat),
      (∀ x ∈ addrs, base ≤ x) → addrs.length = 9 →
      puzzleLoopH picks st addrs d = some st' →
      ∀ a, a < base → readRow st' a = readRow st a := by
  intro picks
  induction picks with
  | nil =>
    intro st addrs d st' base _ _ heq a ha
    cases d with
    | zero =>
      obtain rfl : st = st' := by injection heq
      rfl
    | succ m => exact absurd heq (by rw [puzzleLoopH]; simp)
  | cons rc rest ih =>
    intro st addrs d st' base hbase hlen heq a ha
    cases d with
    | zero =>
      obtain rfl : st = st' := by injection heq
      rfl
    | succ m =>
      rw [puzzleLoopH] at heq
      have haddr : addrs.getD rc.1.val 0 ∈ addrs :=
        getD_mem_of_lt addrs rc.1.val 0 (by rw [hlen]; exact rc.1.isLt)
      have hge : base ≤ addrs.getD rc.1.val 0 := hbase _ haddr
      by_cases hcell :
          (readRow st (addrs.getD rc.1.val 0)).getD rc.2.val none ≠ none
      · rw [if_pos hcell] at heq
        have hstep := ih _ addrs m st' base hbase hlen heq a ha
        rw [hstep]
        unfold readRow writeCell
        rw [getD_set_ne _ _ a _ [] (by omega)]
      · rw [if_neg hcell] at heq
        exact ih _ addrs (m + 1) st' base hbase hlen heq a ha

/-! Claim theorems. -/

/-- C1: every grid returned by `generateSudokuGrid` is a full 9×9 grid
whose cells all hold integers 1-9, and every row, every column and every
3×3 box contains each of 1-9 exactly once; the operation always succeeds
(no empty cells remain), for every behaviour of the random shuffle (each
candidate list is a permutation of `[1..9]`, which the comparator sort
guarantees). -/
theorem c1_generated_grid_valid (rnd : Nat → List Nat)
    (hrnd : ∀ k, (rnd k).Perm nums19) :
    gridWF (generateSudokuGrid rnd) ∧
      cells19 (generateSudokuGrid rnd) = true ∧
      gridFull (generateSudokuGrid rnd) = true ∧
      gridValid (generateSudokuGrid rnd) = true :=
  generateSudokuGrid_spec rnd hrnd

theorem c1_witness :
    gridWF (generateSudokuGrid fun _ => nums19) ∧
      cells19 (generateSudokuGrid fun _ => nums19) = true ∧
      gridFull (generateSudokuGrid fun _ => nums19) = true ∧
      gridValid (generateSudokuGrid fun _ => nums19) = true :=
  c1_generated_grid_valid (fun _ => nums19) (fun _ => List.Perm.refl nums19)

/-- C2: for a fully filled solution grid and `removalCount ≤ 81`,
whenever the removal loop finishes, the derived puzzle has exactly
`removalCount` empty cells and every non-empty cell equals the
corresponding solution cell. -/
theorem c2_derived_puzzle (picks : List (Fin 9 × Fin 9)) (sol p : Grid)
    (n : Nat) (_hwf : gridWF sol) (hfull : gridFull sol = true) (_hn : n ≤ 81)
    (heq : createPuzzle picks sol n = some p) :
    noneCount p = n ∧
      ∀ r c v, cellAt p r c = some v → cellAt sol r c = some v := by
  obtain ⟨hcount, hpres⟩ := createPuzzle_spec picks sol n p heq
  rw [noneCount_eq_zero_of_full hfull] at hcount
  exact ⟨by omega, hpres⟩

def cexPicks2 : List (Fin 9 × Fin 9) :=
  [((0 : Fin 9), (0 : Fin 9)), ((0 : Fin 9), (1 : Fin 9))]

def cexP2 : Grid := (createPuzzle cexPicks2 solvedGrid 2).getD []

theorem c2_witness :
    gridWF solvedGrid ∧ gridFull solvedGrid = true ∧ 2 ≤ 81 ∧
    createPuzzle cexPicks2 solvedGrid 2 = some cexP2 ∧
    (noneCount cexP2 = 2 ∧
      ∀ r c v, cellAt cexP2 r c = some v → cellAt solvedGrid r c = some v) :=
  ⟨by decide, by decide, by omega, by decide,
    c2_derived_puzzle cexPicks2 solvedGrid cexP2 2 (by decide) (by decide)
      (by omega) (by decide)⟩

/-- C3: after any finite sequence of selection, value-entry, undo and
redo operations from a freshly initialized session, the cursor is a valid
index into the history log, the log is non-empty, and the snapshot under
the cursor equals the current puzzle. -/
theorem c3_history_invariant (sol orig : Grid) (ops : List Op)
    (s' : Session) (hops : ∀ op ∈ ops, op.isMove = true)
    (happ : applyOps (initSession sol orig) ops = some s') :
    s'.historyIndex < s'.history.length ∧ s'.history ≠ [] ∧
      s'.history.getD s'.historyIndex [] = s'.puzzle := by
  have hinit : HistInv (initSession sol orig) :=
    ⟨by simp [initSession], by simp [initSession], rfl⟩
  exact histInv_moves ops _ s' hops happ hinit

theorem c3_witness :
    cexOps.all Op.isMove = true ∧
    applyOps (initSession solvedGrid cexOrig) cexOps = some cexAfterMoves ∧
    (cexAfterMoves.historyIndex < cexAfterMoves.history.length ∧
      cexAfterMoves.history ≠ [] ∧
      cexAfterMoves.history.getD cexAfterMoves.historyIndex []
        = cexAfterMoves.puzzle) :=
  ⟨by decide, by decide,
    c3_history_invariant solvedGrid cexOrig cexOps cexAfterMoves
      (by decide) (by decide)⟩

/-- C4: entering a value with a valid selection (in particular after the
cursor was moved backward by undo) replaces the log by the prefix up to
the cursor with the new snapshot appended, discarding everything after
the old cursor, and the cursor points at the appended snapshot. -/
theorem c4_branch_truncation (s : Session) (row col num : Nat)
    (hsel : s.selectedCell = some (row, col))
    (hedit : cellAt s.originalPuzzle row col = none)
    (hidx : s.historyIndex < s.history.length) :
    (handleNumberClick s num).history =
      s.history.take (s.historyIndex + 1) ++
        [setCell s.puzzle row col (some num)] ∧
    (handleNumberClick s num).historyIndex = s.historyIndex + 1 ∧
    (handleNumberClick s num).puzzle = setCell s.puzzle row col (some num) ∧
    (handleNumberClick s num).history.getD
        (handleNumberClick s num).historyIndex [] =
      setCell s.puzzle row col (some num) := by
  rw [handleNumberClick_active num hsel hedit]
  have htk : (s.history.take (s.historyIndex + 1)).length
      = s.historyIndex + 1 := by
    rw [List.length_take]
    omega
  refine ⟨rfl, ?_, rfl, ?_⟩
  · dsimp only
    rw [List.length_append, htk]
    simp only [List.length_cons, List.length_nil]
    omega
  · exact getD_append_last _ _ _

theorem c4_witness :
    cexS4.selectedCell = some (4, 2) ∧
    cellAt cexS4.originalPuzzle 4 2 = none ∧
    cexS4.historyIndex < cexS4.history.length ∧
    ((handleNumberClick cexS4 7).history =
        cexS4.history.take (cexS4.historyIndex + 1) ++
          [setCell cexS4.puzzle 4 2 (some 7)] ∧
      (handleNumberClick cexS4 7).historyIndex = cexS4.historyIndex + 1 ∧
      (handleNumberClick cexS4 7).puzzle = setCell cexS4.puzzle 4 2 (some 7) ∧
      (handleNumberClick cexS4 7).history.getD
          (handleNumberClick cexS4 7).historyIndex [] =
        setCell cexS4.puzzle 4 2 (some 7)) :=
  ⟨by decide, by decide, by decide,
    c4_branch_truncation cexS4 4 2 7 (by decide) (by decide) (by decide)⟩

/-- C5 counterexample: from a well-initialized session, one `reset`
reaches a state in which a given cell of the original puzzle no longer
holds the solution's value in the current puzzle (reset re-derives the
puzzle with a fresh random removal pattern but leaves the stale
`originalPuzzle` in place). -/
theorem c5_counterexample :
    createPuzzle cexPicksA solvedGrid 40 = some cexOrig ∧
    (applyOps cexInit [Op.resetGame cexPicksB cexPicksA]).map givenRespected
      = some false := by
  decide

/-- C5 (amended): in every session state reachable without `reset`, every
given cell of the original puzzle holds the solution's value in the
current puzzle; and `enterValue` never modifies a given cell, in any
state whatsoever. -/
theorem c5_given_cells (sol orig : Grid) (picks : List (Fin 9 × Fin 9))
    (hwf : gridWF sol) (hinit : createPuzzle picks sol 40 = some orig)
    (ops : List Op) (s' : Session) (hnr : ∀ op ∈ ops, op.isReset = false)
    (happ : applyOps (initSession sol orig) ops = some s') :
    (∀ r c, cellAt s'.originalPuzzle r c ≠ none →
      cellAt s'.puzzle r c = cellAt s'.solution r c) ∧
    (∀ (t : Session) (num r c : Nat), cellAt t.originalPuzzle r c ≠ none →
      cellAt (handleNumberClick t num).puzzle r c = cellAt t.puzzle r c) := by
  constructor
  · exact (goodState_steps ops _ s' hnr happ
      (goodState_init hwf hinit)).2.2.2.2.2.1
  · intro t num r c hgiven
    cases hsel : t.selectedCell with
    | none => rw [handleNumberClick_no_selection num hsel]
    | some rc =>
      obtain ⟨row, col⟩ := rc
      by_cases hedit : cellAt t.originalPuzzle row col = none
      · rw [handleNumberClick_active num hsel hedit]
        dsimp only
        apply cellAt_setCell_ne
        by_contra hcon
        push_neg at hcon
        rw [hcon.1, hcon.2] at hedit
        exact hgiven hedit
      · rw [handleNumberClick_given num hsel hedit]

theorem c5_witness :
    gridWF solvedGrid ∧
    createPuzzle cexPicksA solvedGrid 40 = some cexOrig ∧
    cexOps.all (fun op => !op.isReset) = true ∧
    applyOps (initSession solvedGrid cexOrig) cexOps = some cexAfterMoves ∧
    ((∀ r c, cellAt cexAfterMoves.originalPuzzle r c ≠ none →
        cellAt cexAfterMoves.puzzle r c = cellAt cexAfterMoves.solution r c) ∧
      (∀ (t : Session) (num r c : Nat),
        cellAt t.originalPuzzle r c ≠ none →
        cellAt (handleNumberClick t num).puzzle r c = cellAt t.puzzle r c)) :=
  ⟨by decide, by decide, by decide, by decide,
    c5_given_cells solvedGrid cexOrig cexPicksA (by decide) (by decide)
      cexOps cexAfterMoves (by decide) (by decide)⟩

/-- C6 (code bug): `reset` calls `createPuzzle(solution, 40)` twice —
once for the new current puzzle, once for the history — so with two
different random draws the single history snapshot differs from the
installed current puzzle, even though the log has exactly one entry and
the cursor is 0. -/
theorem c6_reset_mismatch :
    (reset cexInit cexPicksB cexPicksA).map
        (fun s' => decide (s'.history = [s'.puzzle])) = some false ∧
      (reset cexInit cexPicksB cexPicksA).map
        (fun s' => decide (s'.historyIndex = 0 ∧ s'.history.length = 1))
        = some true := by
  decide

/-- C7 counterexample: after a `reset`, `clearUserInputs` no longer
reproduces the original puzzle (a cell that is given in `originalPuzzle`
was blanked by the reset and stays blank after clearing). -/
theorem c7_counterexample :
    (applyOps cexInit [Op.resetGame cexPicksB cexPicksA]).map
      (fun s' => decide ((clearUserInputs s').puzzle = s'.originalPuzzle))
      = some false := by
  decide

/-- C7 (amended): in every session state reachable without `reset`, the
grid produced by `clearUserInputs` equals the original puzzle exactly:
editable cells are blanked and given cells carry the original values. -/
theorem c7_clear_restores_original (sol orig : Grid)
    (picks : List (Fin 9 × Fin 9)) (hwf : gridWF sol)
    (hinit : createPuzzle picks sol 40 = some orig)
    (ops : List Op) (s' : Session) (hnr : ∀ op ∈ ops, op.isReset = false)
    (happ : applyOps (initSession sol orig) ops = some s') :
    (clearUserInputs s').puzzle = s'.originalPuzzle := by
  obtain ⟨hwfO, hwfP, -, -, hOS, hPS, -⟩ :=
    goodState_steps ops _ s' hnr happ (goodState_init hwf hinit)
  show clearCells s'.originalPuzzle 0 s'.puzzle = s'.originalPuzzle
  apply grid_ext (gridWF_clearCells hwfP) hwfO
  intro r hr c hc
  have hcell := cellAt_clearCells s'.originalPuzzle s'.puzzle 0 r c
  simp only [Nat.zero_add] at hcell
  rw [hcell]
  by_cases hgiven : cellAt s'.originalPuzzle r c = none
  · rw [if_pos hgiven, hgiven]
  · rw [if_neg hgiven, hPS r c hgiven, ← hOS r c hgiven]

theorem c7_witness :
    gridWF solvedGrid ∧
    createPuzzle cexPicksA solvedGrid 40 = some cexOrig ∧
    cexOps.all (fun op => !op.isReset) = true ∧
    applyOps (initSession solvedGrid cexOrig) cexOps = some cexAfterMoves ∧
    (clearUserInputs cexAfterMoves).puzzle = cexAfterMoves.originalPuzzle :=
  ⟨by decide, by decide, by decide, by decide,
    c7_clear_restores_original solvedGrid cexOrig cexPicksA (by decide)
      (by decide) cexOps cexAfterMoves (by decide) (by decide)⟩

/-- C8 (code bug): `createPuzzle` neither clamps nor rejects an excessive
`removalCount` — whenever `removalCount` exceeds the number of filled
cells, no finite sequence of random draws makes the retry loop finish
(the JS `while` loop spins forever; in the embedding, every finite prefix
of the random stream is exhausted with attempts remaining). -/
theorem c8_overrun_never_returns (picks : List (Fin 9 × Fin 9)) (g : Grid)
    (n : Nat) (h : filledCount g < n) : createPuzzle picks g n = none :=
  createPuzzle_overrun picks g n h

theorem c8_witness :
    filledCount solvedGrid < 82 ∧
      createPuzzle cexPicksA solvedGrid 82 = none :=
  ⟨by decide, c8_overrun_never_returns cexPicksA solvedGrid 82 (by decide)⟩

/-- C9 counterexample: clicking with an out-of-range row is not a no-op:
`originalPuzzle[9]` is `undefined`, so evaluating `[0]` on it throws a
TypeError (modelled as `none`) instead of leaving the session unchanged. -/
theorem c9_counterexample :
    handleCellClick cexInit 9 0 = none ∧
      handleCellClick cexInit 9 0 ≠ some cexInit := by
  decide

/-- C9 (amended): a selection whose row is in range and which does not
hit an editable cell — a given cell, or an out-of-range column (read as
`undefined`, which is `!== null`) — is a total no-op: the session is
returned unchanged and nothing is thrown.  Only an out-of-range row
throws. -/
theorem c9_invalid_selection_noop (s : Session) (row col : Nat)
    (rowArr : List Cell) (hrow : s.originalPuzzle[row]? = some rowArr)
    (hcell : rowArr[col]? ≠ some none) :
    handleCellClick s row col = some s := by
  unfold handleCellClick
  rw [hrow]
  dsimp only
  cases hc : rowArr[col]? with
  | none => rfl
  | some cell =>
    cases cell with
    | none => exact absurd hc hcell
    | some v => rfl

theorem c9_witness :
    cexInit.originalPuzzle[8]? = some (cexInit.originalPuzzle.getD 8 []) ∧
    (cexInit.originalPuzzle.getD 8 [])[0]? ≠ some none ∧
    handleCellClick cexInit 8 0 = some cexInit :=
  ⟨by decide, by decide,
    c9_invalid_selection_noop cexInit 8 0 (cexInit.originalPuzzle.getD 8 [])
      (by decide) (by decide)⟩

/-- C10: `createPuzzle` does not mutate its solution argument: it blanks
cells only in a fresh row-by-row copy, so in the aliasing model every row
referenced by the argument grid reads back unchanged from the final
store. -/
theorem c10_no_mutation (picks : List (Fin 9 × Fin 9)) (st : Store)
    (gridAddrs : List Nat) (d : Nat) (st' : Store) (addrs' : List Nat)
    (hlen : gridAddrs.length = 9)
    (heq : createPuzzleH picks st gridAddrs d = some (st', addrs')) :
    ∀ a ∈ gridAddrs, a < st.length → readRow st' a = readRow st a := by
  unfold createPuzzleH at heq
  rw [Option.map_eq_some'] at heq
  obtain ⟨st2, hloop, heq2⟩ := heq
  obtain ⟨rfl, rfl⟩ : st2 = st' ∧
      List.range' st.length gridAddrs.length = addrs' := by
    constructor
    · exact congrArg Prod.fst heq2
    · exact congrArg Prod.snd heq2
  intro a ha hlt
  have hbase : ∀ x ∈ List.range' st.length gridAddrs.length,
      st.length ≤ x := by
    intro x hx
    rw [List.mem_range'_1] at hx
    omega
  have hfr := puzzleLoopH_frame picks _ _ d _ st.length hbase
    (by simp [hlen]) hloop a hlt
  rw [hfr]
  unfold readRow
  exact getD_append_lt st _ a [] hlt

def cexHeapPicks : List (Fin 9 × Fin 9) :=
  [((0 : Fin 9), (0 : Fin 9)), ((0 : Fin 9), (1 : Fin 9))]

def cexHeapResult : Option (Store × List Nat) :=
  createPuzzleH cexHeapPicks solvedGrid [0, 1, 2, 3, 4, 5, 6, 7, 8] 2

def cexStore2 : Store := (cexHeapResult.getD ([], [])).1

def cexAddrs2 : List Nat := (cexHeapResult.getD ([], [])).2

theorem c10_witness :
    ([0, 1, 2, 3, 4, 5, 6, 7, 8] : List Nat).length = 9 ∧
    createPuzzleH cexHeapPicks solvedGrid [0, 1, 2, 3, 4, 5, 6, 7, 8] 2
      = some (cexStore2, cexAddrs2) ∧
    (0 : Nat) ∈ ([0, 1, 2, 3, 4, 5, 6, 7, 8] : List Nat) ∧
    0 < solvedGrid.length ∧
    readRow cexStore2 0 = readRow solvedGrid 0 :=
  ⟨by decide, by decide, by decide, by decide,
    c10_no_mutation cexHeapPicks solvedGrid [0, 1, 2, 3, 4, 5, 6, 7, 8] 2
      cexStore2 cexAddrs2 (by decide) (by decide) 0 (by decide) (by decide)⟩

end SudokuApp
